import Mathlib

/-!
# WaitSet, Trigger and Condition of iceoryx: a shallow embedding

Source: iceoryx_posh/source/popo/wait_set.cpp,
iceoryx_utils/internal/cxx/method_callback.inl,
iceoryx_hoofs/memory/source/bump_allocator.cpp and
iceoryx_utils/platform/win/source/semaphore.cpp.

Addresses (of Conditions, of the WaitSet, of the shared condition variable, of
member functions) are natural numbers.  The WaitSet code runs on a `State`:
the WaitSet object, the `World` outside it (the Condition objects), and the
chronological `trace` of the calls the WaitSet code makes to its collaborators.
-/

namespace iox

namespace cxx

/-- Modelled from the spec: the container cxx::vector<T, Capacity> (its header is
not among the sources) is a bounded ordered collection whose capacity is fixed
in the type; it can never hold more than Capacity elements. -/
structure vector (α : Type) (Capacity : Nat) where
  data : List α
  size_le : data.length ≤ Capacity

namespace vector

variable {α : Type} {Capacity : Nat}

/-- A default-constructed vector holds nothing. -/
def nil : vector α Capacity := ⟨[], Nat.zero_le _⟩

def size (v : vector α Capacity) : Nat := v.data.length

def empty (v : vector α Capacity) : Bool := v.data.isEmpty

/-- Appends `x` when there is room and reports true; reports false and stores
nothing when the vector is full. -/
def push_back (v : vector α Capacity) (x : α) : Bool × vector α Capacity :=
  if h : v.data.length < Capacity then
    (true, ⟨v.data ++ [x], by simp only [List.length_append, List.length_singleton]; omega⟩)
  else
    (false, v)

/-- The last element.  On an empty vector C++ leaves the value undefined; the
embedding then yields `default` (never reached from `WaitSet.attach`, see
`WaitSet.attach_back_defined`). -/
def back [Inhabited α] (v : vector α Capacity) : α := v.data.getLastD default

/-- Erases the element at position `i`; the elements behind it move up. -/
def erase (v : vector α Capacity) (i : Nat) : vector α Capacity :=
  ⟨v.data.eraseIdx i, Nat.le_trans (List.length_eraseIdx_le v.data i) v.size_le⟩

def clear (_v : vector α Capacity) : vector α Capacity := nil

end vector

/-- Modelled from the spec: the memory outside the WaitSet.  `memberResult o m` is
what invoking the const member function at address `m` on the object at address
`o` returns at this moment; `attachment c` is the record a Condition keeps of the
WaitSet and condition variable it is attached to. -/
structure World where
  memberResult : Nat → Nat → Bool
  attachment : Nat → Option (Nat × Nat)

/-- The trampoline constMethodCallbackCaller: calls the member function
`methodPtr` on the object `classPtr`. -/
def constMethodCallbackCaller (w : World) (classPtr methodPtr : Nat) : Bool :=
  w.memberResult classPtr methodPtr

/-- ConstMethodCallback<bool>: the bound object and the bound member function.
The third member `m_callback` is always the trampoline
`constMethodCallbackCaller`, the only value the constructor gives it. -/
structure ConstMethodCallback where
  m_classPtr : Nat
  m_methodPtr : Nat
deriving DecidableEq, Repr, Inhabited

namespace ConstMethodCallback

/-- The operator(): m_callback(m_classPtr, m_methodPtr). -/
def call (cb : ConstMethodCallback) (w : World) : Bool :=
  constMethodCallbackCaller w cb.m_classPtr cb.m_methodPtr

/-- The operator==. -/
def eq (lhs rhs : ConstMethodCallback) : Bool :=
  lhs.m_classPtr == rhs.m_classPtr && lhs.m_methodPtr == rhs.m_methodPtr

end ConstMethodCallback

end cxx

namespace popo

open cxx

/-! The Condition capability (condition.hpp is not among the sources):
hasTriggered, attachConditionVariable, detachConditionVariable and
isConditionVariableAttached, each acting on the Condition object at address `c`. -/

namespace Condition

/-- The member-function address &Condition::hasTriggered. -/
def hasTriggeredMethod : Nat := 1

/-- Modelled from the spec: `hasTriggered() -> bool`, free of side effects. -/
def hasTriggered (w : World) (c : Nat) : Bool := w.memberResult c hasTriggeredMethod

/-- Modelled from the spec: `attachConditionVariable(owner, handle)` records which
WaitSet and handle the Condition is attached to. -/
def attachConditionVariable (w : World) (c owner handle : Nat) : World :=
  { w with attachment := Function.update w.attachment c (some (owner, handle)) }

/-- Modelled from the spec: `detachConditionVariable()` clears that record. -/
def detachConditionVariable (w : World) (c : Nat) : World :=
  { w with attachment := Function.update w.attachment c none }

/-- Modelled from the spec: `isConditionVariableAttached() -> bool`. -/
def isConditionVariableAttached (w : World) (c : Nat) : Bool := (w.attachment c).isSome

end Condition

/-- Modelled from the spec: the shared condition variable as seen through
ConditionVariableWaiter, an opaque external collaborator.  Each operation is an
arbitrary transformer of the World, so that it also covers what other processes
do to the Conditions while the call runs or blocks. -/
structure ConditionVariableWaiter where
  wasNotified : World → Bool × World
  reset : World → World
  wait : World → World
  timedWait : Nat → World → Bool × World

/-- The calls the WaitSet code makes to its collaborators. -/
inductive Call where
  | invoke (classPtr methodPtr : Nat)
  | isConditionVariableAttached (c : Nat)
  | attachConditionVariable (c owner handle : Nat)
  | detachConditionVariable (c : Nat)
  | wasNotified
  | reset
  | wait
  | timedWait (timeout : Nat)
deriving DecidableEq, Repr

/-- The blocking operations of the handle. -/
def Call.isBlocking : Call → Bool
  | .wait => true
  | .timedWait _ => true
  | _ => false

inductive WaitSetError where
  | CONDITION_VECTOR_OVERFLOW
deriving DecidableEq, Repr

namespace WaitSet

/-- WaitSet::Trigger. -/
structure Trigger where
  m_condition : Nat
  m_hasTriggeredCall : ConstMethodCallback
  m_conditionVariableDataPtr : Nat
deriving DecidableEq, Repr, Inhabited

namespace Trigger

/-- Modelled from the spec: the constructor used as
`Trigger{&condition, &Condition::hasTriggered, m_conditionVariableDataPtr}` binds
the callback to the given member function of the given Condition. -/
def make (condition method handle : Nat) : Trigger :=
  ⟨condition, ⟨condition, method⟩, handle⟩

def hasTriggered (t : Trigger) (w : World) : Bool := t.m_hasTriggeredCall.call w

/-- The operator==(const Trigger&). -/
def eq (lhs rhs : Trigger) : Bool :=
  lhs.m_condition == rhs.m_condition && lhs.m_hasTriggeredCall.eq rhs.m_hasTriggeredCall

/-- The operator==(const void*). -/
def eqAddr (lhs : Trigger) (rhs : Nat) : Bool := lhs.m_condition == rhs

end Trigger

end WaitSet

/-- The WaitSet object: its own address (`this`), the condition variable it was
constructed with, and the bounded Trigger collection. -/
structure WaitSetData (Capacity : Nat) where
  self : Nat
  m_conditionVariableDataPtr : Nat
  m_conditionVector : vector WaitSet.Trigger Capacity

/-- The WaitSet, the World around it and the calls made so far. -/
structure State (Capacity : Nat) where
  waitSet : WaitSetData Capacity
  world : World
  trace : List Call

namespace WaitSet

variable {Capacity : Nat}

/-- The constructor WaitSet(condVarDataPtr). -/
def construct (self condVarDataPtr : Nat) (w : World) : State Capacity :=
  ⟨⟨self, condVarDataPtr, vector.nil⟩, w, []⟩

def isConditionAttached (ws : WaitSetData Capacity) (condition : Nat) : Bool :=
  ws.m_conditionVector.data.any (fun currentCondition => currentCondition.eqAddr condition)

def attach (s : State Capacity) (condition : Nat) : Except WaitSetError Trigger × State Capacity :=
  if !isConditionAttached s.waitSet condition then
    let r := s.waitSet.m_conditionVector.push_back
      (Trigger.make condition Condition.hasTriggeredMethod s.waitSet.m_conditionVariableDataPtr)
    if !r.1 then
      (.error .CONDITION_VECTOR_OVERFLOW, s)
    else
      (.ok r.2.back, { s with waitSet := { s.waitSet with m_conditionVector := r.2 } })
  else
    (.ok s.waitSet.m_conditionVector.back, s)

def attachCondition (s : State Capacity) (condition : Nat) : Except WaitSetError Unit × State Capacity :=
  if !isConditionAttached s.waitSet condition then
    let r := s.waitSet.m_conditionVector.push_back
      (Trigger.make condition Condition.hasTriggeredMethod s.waitSet.m_conditionVariableDataPtr)
    if !r.1 then
      (.error .CONDITION_VECTOR_OVERFLOW, s)
    else
      (.ok (),
        { waitSet := { s.waitSet with m_conditionVector := r.2 }
          world := Condition.attachConditionVariable s.world condition s.waitSet.self
            s.waitSet.m_conditionVariableDataPtr
          trace := s.trace ++ [Call.attachConditionVariable condition s.waitSet.self
            s.waitSet.m_conditionVariableDataPtr] })
  else
    (.ok (), s)

def detachCondition (s : State Capacity) (condition : Nat) : State Capacity :=
  let s1 := { s with trace := s.trace ++ [Call.isConditionVariableAttached condition] }
  if !Condition.isConditionVariableAttached s.world condition then
    s1
  else
    { s1 with
      world := Condition.detachConditionVariable s1.world condition
      trace := s1.trace ++ [Call.detachConditionVariable condition] }

def remove (s : State Capacity) (entry : Nat) : State Capacity :=
  match s.waitSet.m_conditionVector.data.findIdx? (fun currentCondition => currentCondition.eqAddr entry) with
  | some i => { s with waitSet := { s.waitSet with m_conditionVector := s.waitSet.m_conditionVector.erase i } }
  | none => s

def detachAllConditions (s : State Capacity) : State Capacity :=
  let s1 := s.waitSet.m_conditionVector.data.foldl
    (fun (acc : State Capacity) currentCondition =>
      { acc with
        world := Condition.detachConditionVariable acc.world currentCondition.m_condition
        trace := acc.trace ++ [Call.detachConditionVariable currentCondition.m_condition] })
    s
  { s1 with waitSet := { s1.waitSet with m_conditionVector := s1.waitSet.m_conditionVector.clear } }

/-- The destructor. -/
def destruct (s : State Capacity) : State Capacity := detachAllConditions s

/-- One round of the loop in createVectorWithFullfilledConditions: the callback of
`currentCondition` is invoked and, when it reports true, the Condition is pushed
to `conditions` without looking at what push_back reports. -/
def scanStep (acc : vector Nat Capacity × State Capacity) (currentCondition : Trigger) :
    vector Nat Capacity × State Capacity :=
  let fulfilled := currentCondition.m_hasTriggeredCall.call acc.2.world
  let s1 := { acc.2 with
    trace := acc.2.trace ++ [Call.invoke currentCondition.m_hasTriggeredCall.m_classPtr
      currentCondition.m_hasTriggeredCall.m_methodPtr] }
  if fulfilled then ((acc.1.push_back currentCondition.m_condition).2, s1) else (acc.1, s1)

def createVectorWithFullfilledConditions (s : State Capacity) : vector Nat Capacity × State Capacity :=
  s.waitSet.m_conditionVector.data.foldl scanStep (vector.nil, s)

def waitAndReturnFulfilledConditions (cv : ConditionVariableWaiter)
    (wait : State Capacity → Bool × State Capacity) (s : State Capacity) :
    vector Nat Capacity × State Capacity :=
  let n := cv.wasNotified s.world
  let s1 : State Capacity := { s with world := n.2, trace := s.trace ++ [Call.wasNotified] }
  let r : vector Nat Capacity × State Capacity :=
    if n.1 then
      createVectorWithFullfilledConditions
        { s1 with world := cv.reset s1.world, trace := s1.trace ++ [Call.reset] }
    else
      (vector.nil, s1)
  if !r.1.empty then
    r
  else
    let b := wait r.2
    if b.1 then (r.1, b.2) else createVectorWithFullfilledConditions b.2

/-- The lambda of timedWait: `!m_conditionVariableWaiter.timedWait(timeout)`. -/
def timedWaitFunction (cv : ConditionVariableWaiter) (timeout : Nat) (s : State Capacity) :
    Bool × State Capacity :=
  let t := cv.timedWait timeout s.world
  (!t.1, { s with world := t.2, trace := s.trace ++ [Call.timedWait timeout] })

/-- The lambda of wait: `m_conditionVariableWaiter.wait(); return false;`. -/
def waitFunction (cv : ConditionVariableWaiter) (s : State Capacity) : Bool × State Capacity :=
  (false, { s with world := cv.wait s.world, trace := s.trace ++ [Call.wait] })

def timedWait (cv : ConditionVariableWaiter) (timeout : Nat) (s : State Capacity) :
    vector Nat Capacity × State Capacity :=
  waitAndReturnFulfilledConditions cv (timedWaitFunction cv timeout) s

def wait (cv : ConditionVariableWaiter) (s : State Capacity) : vector Nat Capacity × State Capacity :=
  waitAndReturnFulfilledConditions cv (waitFunction cv) s

/-! ## Specification-side notions -/

/-- The Conditions of the attached Triggers whose hasTriggered() is true in the
World `w`, in collection order: what the spec calls the scan. -/
def fulfilledConditions (ws : WaitSetData Capacity) (w : World) : List Nat :=
  (ws.m_conditionVector.data.filter (fun t => t.hasTriggered w)).map (fun t => t.m_condition)

/-- The callback invocations of one scan, in collection order. -/
def scanCalls (ws : WaitSetData Capacity) : List Call :=
  ws.m_conditionVector.data.map
    (fun t => Call.invoke t.m_hasTriggeredCall.m_classPtr t.m_hasTriggeredCall.m_methodPtr)

/-- The calls made between the state `before` and the later state `after`. -/
def callsMade (before after : State Capacity) : List Call :=
  after.trace.drop before.trace.length

/-- The World in which the pre-check scans: after wasNotified() and reset(). -/
def preCheckWorld (cv : ConditionVariableWaiter) (s : State Capacity) : World :=
  cv.reset (cv.wasNotified s.world).2

/-- The pre-check produced nothing: wasNotified() is false, or no attached
Trigger's hasTriggered() is true. -/
def preCheckEmpty (cv : ConditionVariableWaiter) (s : State Capacity) : Prop :=
  (cv.wasNotified s.world).1 = false ∨
    ∀ t ∈ s.waitSet.m_conditionVector.data, t.hasTriggered (preCheckWorld cv s) = false

/-- The state after the pre-check (step 1 of the drain protocol): wasNotified()
has been asked and, when it said true, reset() and one scan have been made. -/
def preCheckState (cv : ConditionVariableWaiter) (s : State Capacity) : State Capacity :=
  if (cv.wasNotified s.world).1 then
    ⟨s.waitSet, preCheckWorld cv s, s.trace ++ [Call.wasNotified, Call.reset] ++ scanCalls s.waitSet⟩
  else
    ⟨s.waitSet, (cv.wasNotified s.world).2, s.trace ++ [Call.wasNotified]⟩

/-- Attaches the Conditions of a list one after the other with attach, collecting
what every call returned. -/
def attachEach (s : State Capacity) : List Nat → List (Except WaitSetError Trigger) × State Capacity
  | [] => ([], s)
  | c :: cs => ((attach s c).1 :: (attachEach (attach s c).2 cs).1, (attachEach (attach s c).2 cs).2)

/-- Attaches the Conditions of a list one after the other with attachCondition,
collecting what every call returned. -/
def attachConditionEach (s : State Capacity) :
    List Nat → List (Except WaitSetError Unit) × State Capacity
  | [] => ([], s)
  | c :: cs => ((attachCondition s c).1 :: (attachConditionEach (attachCondition s c).2 cs).1,
      (attachConditionEach (attachCondition s c).2 cs).2)

/-- The states a WaitSet can be in: those reached from the constructor by the
public operations, with any behaviour of the handle. -/
inductive Reachable : State Capacity → Prop
  | by_construct (self handle : Nat) (w : World) : Reachable (construct self handle w)
  | by_attach {s : State Capacity} (c : Nat) : Reachable s → Reachable (attach s c).2
  | by_attachCondition {s : State Capacity} (c : Nat) :
      Reachable s → Reachable (attachCondition s c).2
  | by_detachCondition {s : State Capacity} (c : Nat) :
      Reachable s → Reachable (detachCondition s c)
  | by_remove {s : State Capacity} (entry : Nat) : Reachable s → Reachable (remove s entry)
  | by_detachAllConditions {s : State Capacity} : Reachable s → Reachable (detachAllConditions s)
  | by_wait {s : State Capacity} (cv : ConditionVariableWaiter) :
      Reachable s → Reachable (wait cv s).2
  | by_timedWait {s : State Capacity} (cv : ConditionVariableWaiter) (timeout : Nat) :
      Reachable s → Reachable (timedWait cv timeout s).2

/-- The representation invariant: no two Triggers reference the same Condition, and
every Trigger is the one attach builds for its Condition (callback bound to
hasTriggered of that Condition, handle of this WaitSet). -/
def WellFormed (ws : WaitSetData Capacity) : Prop :=
  (ws.m_conditionVector.data.map (fun t => t.m_condition)).Nodup ∧
    ∀ t ∈ ws.m_conditionVector.data,
      t = Trigger.make t.m_condition Condition.hasTriggeredMethod ws.m_conditionVariableDataPtr

end WaitSet

end popo

end iox

/-! ## The generic method callbacks, the operations of a WaitSet, the bump allocator -/

namespace iox

namespace cxx

/-- Modelled from the spec: the objects of one class and the member functions of
that class, as a callback sees them.  `object o` is the state of the object at
address `o`; `method m` and `constMethod m` are the member functions at the
member-function address `m` (a const one cannot change the object); `calls`
lists the member-function calls made so far: object, member function, arguments.
The reinterpret_casts of the source are the identity on addresses. -/
structure Heap (σ Args R : Type) where
  object : Nat → σ
  method : Nat → σ → Args → R × σ
  constMethod : Nat → σ → Args → R
  calls : List (Nat × Nat × Args)

namespace Heap

variable {σ Args R : Type}

/-- Modelled from the spec: calling the member function at address `m` on the
object at address `o` with `args`, the C++ expression `(o.*m)(args...)`: the
value returned and the memory after the call. -/
def callMember (h : Heap σ Args R) (o m : Nat) (args : Args) : R × Heap σ Args R :=
  ((h.method m (h.object o) args).1,
    { h with
      object := Function.update h.object o (h.method m (h.object o) args).2
      calls := h.calls ++ [(o, m, args)] })

/-- Modelled from the spec: the same for a const member function. -/
def callConstMember (h : Heap σ Args R) (o m : Nat) (args : Args) : R × Heap σ Args R :=
  (h.constMethod m (h.object o) args, { h with calls := h.calls ++ [(o, m, args)] })

/-- The trampoline methodCallbackCaller<ReturnValue, ClassType, Args...>. -/
def methodCallbackCaller (h : Heap σ Args R) (classPtr methodPtr : Nat) (args : Args) :
    R × Heap σ Args R :=
  h.callMember classPtr methodPtr args

/-- The trampoline constMethodCallbackCaller<ReturnValue, ClassType, Args...>. -/
def constMethodCallbackCaller (h : Heap σ Args R) (classPtr methodPtr : Nat) (args : Args) :
    R × Heap σ Args R :=
  h.callConstMember classPtr methodPtr args

end Heap

/-- The World of the WaitSet seen as a Heap: the object at an address is named by
that address, and the const member function `m` reports `memberResult o m`. -/
def World.toHeap (w : World) : Heap Nat Unit Bool :=
  ⟨id, fun _ o _ => (false, o), fun m o _ => w.memberResult o m, []⟩

/-- MethodCallback<ReturnValue, Args...>: the bound object and the bound member
function.  The third member `m_callback` is always the trampoline
`methodCallbackCaller`, the only value the constructor gives it. -/
structure MethodCallback where
  m_classPtr : Nat
  m_methodPtr : Nat
deriving DecidableEq, Repr, Inhabited

namespace MethodCallback

/-- The constructor MethodCallback(classPtr, methodPtr). -/
def make (classPtr methodPtr : Nat) : MethodCallback := ⟨classPtr, methodPtr⟩

/-- The operator(): m_callback(m_classPtr, m_methodPtr, args...). -/
def call {σ Args R : Type} (cb : MethodCallback) (h : Heap σ Args R) (args : Args) :
    R × Heap σ Args R :=
  h.methodCallbackCaller cb.m_classPtr cb.m_methodPtr args

/-- The operator==. -/
def eq (lhs rhs : MethodCallback) : Bool :=
  lhs.m_classPtr == rhs.m_classPtr && lhs.m_methodPtr == rhs.m_methodPtr

end MethodCallback

namespace ConstMethodCallback

/-- The constructor ConstMethodCallback(classPtr, methodPtr). -/
def make (classPtr methodPtr : Nat) : ConstMethodCallback := ⟨classPtr, methodPtr⟩

/-- The operator() with arguments, on a Heap: m_callback(m_classPtr, m_methodPtr, args...). -/
def callOn {σ Args R : Type} (cb : ConstMethodCallback) (h : Heap σ Args R) (args : Args) :
    R × Heap σ Args R :=
  h.constMethodCallbackCaller cb.m_classPtr cb.m_methodPtr args

end ConstMethodCallback

/-- Modelled from the spec: cxx::align (helplets.hpp is not among the sources), the
next multiple of `alignment` at or after `value`, computed in 64-bit unsigned
arithmetic.  An alignment of zero is outside the contract. -/
def align (value alignment : Nat) : Nat :=
  (value + (if value % alignment = 0 then 0 else alignment - value % alignment)) % 2 ^ 64

end cxx

namespace popo

namespace WaitSet

variable {Capacity : Nat}

/-- The public operations that change or use a constructed WaitSet. -/
inductive Operation where
  | attach (condition : Nat)
  | attachCondition (condition : Nat)
  | detachCondition (condition : Nat)
  | remove (entry : Nat)
  | detachAllConditions
  | wait (cv : ConditionVariableWaiter)
  | timedWait (cv : ConditionVariableWaiter) (timeout : Nat)

/-- The state after one operation. -/
def Operation.apply (s : State Capacity) : Operation → State Capacity
  | .attach c => (WaitSet.attach s c).2
  | .attachCondition c => (WaitSet.attachCondition s c).2
  | .detachCondition c => WaitSet.detachCondition s c
  | .remove entry => WaitSet.remove s entry
  | .detachAllConditions => WaitSet.detachAllConditions s
  | .wait cv => (WaitSet.wait cv s).2
  | .timedWait cv timeout => (WaitSet.timedWait cv timeout s).2

/-- The state after a sequence of operations, the first of the list first. -/
def runOperations (s : State Capacity) : List Operation → State Capacity
  | [] => s
  | op :: ops => runOperations (Operation.apply s op) ops

end WaitSet

end popo

inductive BumpAllocatorError where
  | REQUESTED_ZERO_SIZED_MEMORY
  | OUT_OF_MEMORY
deriving DecidableEq, Repr

/-- BumpAllocator: the start address and the length of the region and the bump
position, three 64-bit unsigned values. -/
structure BumpAllocator where
  m_startAddress : Nat
  m_length : Nat
  m_currentPosition : Nat
deriving DecidableEq, Repr

namespace BumpAllocator

/-- The constructor BumpAllocator(startAddress, length); the bump position starts
at zero. -/
def construct (startAddress length : Nat) : BumpAllocator := ⟨startAddress, length, 0⟩

/-- BumpAllocator::allocate, every addition and subtraction taken modulo 2^64 as
on uint64_t.  The result is the returned address or the error, and the allocator
after the call. -/
def allocate (a : BumpAllocator) (size alignment : Nat) :
    Except BumpAllocatorError Nat × BumpAllocator :=
  if size = 0 then
    (.error .REQUESTED_ZERO_SIZED_MEMORY, a)
  else
    let currentAddress := (a.m_startAddress + a.m_currentPosition) % 2 ^ 64
    let alignedPosition := cxx.align currentAddress alignment
    let alignedPosition := (alignedPosition + 2 ^ 64 - a.m_startAddress) % 2 ^ 64
    if a.m_length ≥ (alignedPosition + size) % 2 ^ 64 then
      (.ok ((a.m_startAddress + alignedPosition) % 2 ^ 64),
        { a with m_currentPosition := (alignedPosition + size) % 2 ^ 64 })
    else
      (.error .OUT_OF_MEMORY, a)

/-- BumpAllocator::deallocate. -/
def deallocate (a : BumpAllocator) : BumpAllocator := { a with m_currentPosition := 0 }

/-- The values a uint64_t member or argument can hold. -/
def IsUInt64 (n : Nat) : Prop := n < 2 ^ 64

/-- The smallest multiple of `alignment` that is at least `value`, as an exact
integer. -/
def alignUp (value alignment : Nat) : Nat := alignment * ((value + alignment - 1) / alignment)

/-- The aligned position of the spec as an exact integer: the offset from the start
address of the next aligned address at or after the current bump position. -/
def exactAlignedPosition (a : BumpAllocator) (alignment : Nat) : Nat :=
  alignUp (a.m_startAddress + a.m_currentPosition) alignment - a.m_startAddress

end BumpAllocator

end iox

/-! ## Sequences of allocator calls, the Windows semaphore shim -/

namespace iox

namespace BumpAllocator

/-- The calls a BumpAllocator accepts after construction. -/
inductive Operation where
  | allocate (size alignment : Nat)
  | deallocate
deriving DecidableEq, Repr

/-- The allocator after one call. -/
def Operation.apply (a : BumpAllocator) : Operation → BumpAllocator
  | .allocate size alignment => (BumpAllocator.allocate a size alignment).2
  | .deallocate => BumpAllocator.deallocate a

/-- The allocator after a sequence of calls, the first of the list first. -/
def runOperations (a : BumpAllocator) : List Operation → BumpAllocator
  | [] => a
  | op :: ops => runOperations (Operation.apply a op) ops

end BumpAllocator

end iox

namespace win

/-- The struct timespec of the deadline: seconds and nanoseconds. -/
structure timespec where
  tv_sec : Int
  tv_nsec : Int
deriving DecidableEq, Repr

/-- The struct timeval filled by gettimeofday: seconds and microseconds. -/
structure timeval where
  tv_sec : Int
  tv_usec : Int
deriving DecidableEq, Repr

/-- The values WaitForSingleObject returns (Windows API, not part of the sources). -/
inductive WaitState where
  | WAIT_OBJECT_0
  | WAIT_TIMEOUT
  | WAIT_ABANDONED
  | WAIT_FAILED
deriving DecidableEq, Repr

/-- Conversion to the 32-bit signed `long` of Windows. -/
def toLong (x : Int) : Int := (x + 2 ^ 31) % 2 ^ 32 - 2 ^ 31

/-- Conversion to the 32-bit unsigned DWORD. -/
def toDWORD (x : Int) : Int := x % 2 ^ 32

/-- What one call of sem_timedwait did: the value returned, the `milliseconds`
computed and the DWORD handed to WaitForSingleObject (none when it was not
called), and whether errno was set to ETIMEDOUT. -/
structure TimedwaitOutcome where
  returnValue : Int
  milliseconds : Option Int
  dwMilliseconds : Option Int
  errnoETIMEDOUT : Bool
deriving DecidableEq, Repr

/-- The function sem_timedwait.  `tv` is the current time that gettimeofday reports and
`WaitForSingleObject` gives the outcome of the wait for the timeout it is handed;
the divisions truncate toward zero as in C++. -/
def sem_timedwait (abs_timeout : timespec) (tv : timeval)
    (WaitForSingleObject : Int → WaitState) : TimedwaitOutcome :=
  if abs_timeout.tv_sec < tv.tv_sec then
    ⟨0, none, none, false⟩
  else
    let epochCurrentTimeDiffInSeconds := abs_timeout.tv_sec - tv.tv_sec
    let milliseconds := toLong (epochCurrentTimeDiffInSeconds * 1000
      + Int.tdiv (Int.tdiv abs_timeout.tv_nsec 1000 - tv.tv_usec) 1000)
    let state := WaitForSingleObject (toDWORD milliseconds)
    ⟨if state = WaitState.WAIT_OBJECT_0 then 0 else -1, some milliseconds,
      some (toDWORD milliseconds), decide (state = WaitState.WAIT_TIMEOUT)⟩

/-- The time from the current time `tv` until the deadline, in nanoseconds, as an
exact integer (negative when the deadline has passed). -/
def remainingNanoseconds (abs_timeout : timespec) (tv : timeval) : Int :=
  (abs_timeout.tv_sec - tv.tv_sec) * 1000000000 + abs_timeout.tv_nsec - tv.tv_usec * 1000

end win

/-! ## Theorems -/

namespace iox

namespace cxx

namespace vector

variable {α : Type} {Capacity : Nat}

theorem ext_data {v w : vector α Capacity} (h : v.data = w.data) : v = w := by
  cases v; cases w; cases h; rfl

theorem push_back_of_lt (v : vector α Capacity) (x : α) (h : v.data.length < Capacity) :
    (v.push_back x).1 = true ∧ (v.push_back x).2.data = v.data ++ [x] := by
  simp [push_back, h]

theorem push_back_of_not_lt (v : vector α Capacity) (x : α) (h : ¬ v.data.length < Capacity) :
    v.push_back x = (false, v) := by
  simp [push_back, h]

theorem push_back_fst (v : vector α Capacity) (x : α) :
    (v.push_back x).1 = decide (v.data.length < Capacity) := by
  by_cases h : v.data.length < Capacity <;> simp [push_back, h]

end vector

end cxx

namespace popo

namespace WaitSet

open cxx

variable {Capacity : Nat}

/-! ### The scan -/

theorem scanStep_true (acc : vector Nat Capacity × State Capacity) (t : Trigger)
    (ht : t.m_hasTriggeredCall.call acc.2.world = true) :
    scanStep acc t = ((acc.1.push_back t.m_condition).2,
      ⟨acc.2.waitSet, acc.2.world, acc.2.trace ++
        [Call.invoke t.m_hasTriggeredCall.m_classPtr t.m_hasTriggeredCall.m_methodPtr]⟩) := by
  simp [scanStep, ht]

theorem scanStep_false (acc : vector Nat Capacity × State Capacity) (t : Trigger)
    (ht : ¬ t.m_hasTriggeredCall.call acc.2.world = true) :
    scanStep acc t = (acc.1,
      ⟨acc.2.waitSet, acc.2.world, acc.2.trace ++
        [Call.invoke t.m_hasTriggeredCall.m_classPtr t.m_hasTriggeredCall.m_methodPtr]⟩) := by
  simp [scanStep, ht]

theorem scan_foldl (l : List Trigger) :
    ∀ acc : vector Nat Capacity × State Capacity,
      acc.1.data.length + l.length ≤ Capacity →
      (l.foldl scanStep acc).1.data
          = acc.1.data ++ (l.filter (fun t => t.hasTriggered acc.2.world)).map (fun t => t.m_condition)
        ∧ (l.foldl scanStep acc).2
          = ⟨acc.2.waitSet, acc.2.world, acc.2.trace ++ l.map
              (fun t => Call.invoke t.m_hasTriggeredCall.m_classPtr t.m_hasTriggeredCall.m_methodPtr)⟩ := by
  induction l with
  | nil => intro acc _; simp
  | cons t ts ih =>
    intro acc hlen
    simp only [List.length_cons] at hlen
    simp only [List.foldl_cons]
    by_cases ht : t.m_hasTriggeredCall.call acc.2.world = true
    · have hlt : acc.1.data.length < Capacity := by omega
      have hp := vector.push_back_of_lt acc.1 t.m_condition hlt
      have hstep := scanStep_true acc t ht
      have hlen2 : (scanStep acc t).1.data.length + ts.length ≤ Capacity := by
        rw [hstep]
        simp only [hp.2, List.length_append, List.length_singleton]
        omega
      have h := ih (scanStep acc t) hlen2
      rw [hstep] at h
      rw [hstep]
      refine ⟨?_, ?_⟩
      · rw [h.1, hp.2]
        simp [Trigger.hasTriggered, ht]
      · rw [h.2]
        simp
    · have hstep := scanStep_false acc t ht
      have hlen2 : (scanStep acc t).1.data.length + ts.length ≤ Capacity := by
        rw [hstep]
        simp only []
        omega
      have h := ih (scanStep acc t) hlen2
      rw [hstep] at h
      rw [hstep]
      refine ⟨?_, ?_⟩
      · rw [h.1]
        simp [Trigger.hasTriggered, ht]
      · rw [h.2]
        simp

/-- The loop of createVectorWithFullfilledConditions returns the scan. -/
theorem createVector_data (s : State Capacity) :
    (createVectorWithFullfilledConditions s).1.data = fulfilledConditions s.waitSet s.world := by
  have h := (scan_foldl s.waitSet.m_conditionVector.data (vector.nil, s)
    (by simpa [vector.nil] using s.waitSet.m_conditionVector.size_le)).1
  simpa [createVectorWithFullfilledConditions, fulfilledConditions, vector.nil] using h

/-- The scan changes nothing but the trace, to which it adds one callback
invocation per attached Trigger. -/
theorem createVector_state (s : State Capacity) :
    (createVectorWithFullfilledConditions s).2
      = ⟨s.waitSet, s.world, s.trace ++ scanCalls s.waitSet⟩ := by
  have h := (scan_foldl s.waitSet.m_conditionVector.data (vector.nil, s)
    (by simpa [vector.nil] using s.waitSet.m_conditionVector.size_le)).2
  simpa [createVectorWithFullfilledConditions, scanCalls] using h

theorem fulfilledConditions_eq_nil (ws : WaitSetData Capacity) (w : World) :
    fulfilledConditions ws w = [] ↔ ∀ t ∈ ws.m_conditionVector.data, t.hasTriggered w = false := by
  simp [fulfilledConditions, List.filter_eq_nil_iff]

theorem mem_fulfilledConditions (ws : WaitSetData Capacity) (w : World) (c : Nat) :
    c ∈ fulfilledConditions ws w ↔
      ∃ t ∈ ws.m_conditionVector.data, t.hasTriggered w = true ∧ t.m_condition = c := by
  simp [fulfilledConditions, and_assoc]

/-! ### The drain protocol -/

theorem not_preCheckEmpty_iff (cv : ConditionVariableWaiter) (s : State Capacity) :
    ¬ preCheckEmpty cv s ↔
      (cv.wasNotified s.world).1 = true ∧ fulfilledConditions s.waitSet (preCheckWorld cv s) ≠ [] := by
  unfold preCheckEmpty
  rw [← fulfilledConditions_eq_nil]
  cases (cv.wasNotified s.world).1 <;> simp

/-- When the pre-check finds something, the call returns it and does nothing else. -/
theorem waitAndReturn_of_found (cv : ConditionVariableWaiter)
    (wf : State Capacity → Bool × State Capacity) (s : State Capacity)
    (h : ¬ preCheckEmpty cv s) :
    (waitAndReturnFulfilledConditions cv wf s).1.data
        = fulfilledConditions s.waitSet (preCheckWorld cv s)
      ∧ (waitAndReturnFulfilledConditions cv wf s).2 = preCheckState cv s := by
  rw [not_preCheckEmpty_iff] at h
  obtain ⟨hn, hne⟩ := h
  have hd := @createVector_data Capacity
    ⟨s.waitSet, cv.reset (cv.wasNotified s.world).2, s.trace ++ [Call.wasNotified] ++ [Call.reset]⟩
  have hs := @createVector_state Capacity
    ⟨s.waitSet, cv.reset (cv.wasNotified s.world).2, s.trace ++ [Call.wasNotified] ++ [Call.reset]⟩
  have hemp : (@createVectorWithFullfilledConditions Capacity
      ⟨s.waitSet, cv.reset (cv.wasNotified s.world).2,
        s.trace ++ [Call.wasNotified] ++ [Call.reset]⟩).1.empty = false := by
    unfold vector.empty
    rw [hd]
    cases hf : fulfilledConditions s.waitSet (cv.reset (cv.wasNotified s.world).2) with
    | nil => exact absurd hf hne
    | cons a l => rfl
  unfold waitAndReturnFulfilledConditions
  simp only [hn, if_true, hemp, Bool.not_false]
  refine ⟨hd, ?_⟩
  rw [hs]
  simp [preCheckState, hn, preCheckWorld]

/-- When the pre-check finds nothing, the call runs the wait function on the state
left by the pre-check and then either returns the empty vector or scans. -/
theorem waitAndReturn_of_empty (cv : ConditionVariableWaiter)
    (wf : State Capacity → Bool × State Capacity) (s : State Capacity)
    (h : preCheckEmpty cv s) :
    waitAndReturnFulfilledConditions cv wf s
      = if (wf (preCheckState cv s)).1 then (vector.nil, (wf (preCheckState cv s)).2)
        else createVectorWithFullfilledConditions (wf (preCheckState cv s)).2 := by
  by_cases hn : (cv.wasNotified s.world).1 = true
  · have hnil : fulfilledConditions s.waitSet (preCheckWorld cv s) = [] := by
      rw [fulfilledConditions_eq_nil]
      rcases h with h | h
      · rw [hn] at h; exact absurd h (by decide)
      · exact h
    have hd := @createVector_data Capacity
      ⟨s.waitSet, cv.reset (cv.wasNotified s.world).2, s.trace ++ [Call.wasNotified] ++ [Call.reset]⟩
    have hs := @createVector_state Capacity
      ⟨s.waitSet, cv.reset (cv.wasNotified s.world).2, s.trace ++ [Call.wasNotified] ++ [Call.reset]⟩
    have hv : (@createVectorWithFullfilledConditions Capacity
        ⟨s.waitSet, cv.reset (cv.wasNotified s.world).2,
          s.trace ++ [Call.wasNotified] ++ [Call.reset]⟩).1 = vector.nil := by
      apply vector.ext_data
      rw [hd]
      exact hnil
    have hps : preCheckState cv s = (@createVectorWithFullfilledConditions Capacity
        ⟨s.waitSet, cv.reset (cv.wasNotified s.world).2,
          s.trace ++ [Call.wasNotified] ++ [Call.reset]⟩).2 := by
      rw [hs]
      simp [preCheckState, hn, preCheckWorld]
    unfold waitAndReturnFulfilledConditions
    simp only [hn, if_true, hv, ← hps]
    simp [vector.empty, vector.nil]
  · have hn2 : (cv.wasNotified s.world).1 = false := by
      cases hb : (cv.wasNotified s.world).1 with
      | false => rfl
      | true => exact absurd hb hn
    have hps : preCheckState cv s
        = ⟨s.waitSet, (cv.wasNotified s.world).2, s.trace ++ [Call.wasNotified]⟩ := by
      simp [preCheckState, hn2]
    unfold waitAndReturnFulfilledConditions
    simp only [hn2, hps]
    simp [vector.empty, vector.nil]

theorem preCheckState_waitSet (cv : ConditionVariableWaiter) (s : State Capacity) :
    (preCheckState cv s).waitSet = s.waitSet := by
  unfold preCheckState
  split <;> rfl

theorem scanCalls_not_blocking (ws : WaitSetData Capacity) :
    ∀ c ∈ scanCalls ws, c.isBlocking = false := by
  intro c hc
  simp only [scanCalls, List.mem_map] at hc
  obtain ⟨t, _, rfl⟩ := hc
  rfl

theorem preCheckState_trace (cv : ConditionVariableWaiter) (s : State Capacity) :
    ∃ pre : List Call, (preCheckState cv s).trace = s.trace ++ pre ∧
      ∀ c ∈ pre, c.isBlocking = false := by
  by_cases hn : (cv.wasNotified s.world).1 = true
  · refine ⟨[Call.wasNotified, Call.reset] ++ scanCalls s.waitSet, ?_, ?_⟩
    · simp [preCheckState, hn]
    · intro c hc
      rcases List.mem_append.1 hc with h | h
      · simp only [List.mem_cons, List.mem_singleton, List.not_mem_nil, or_false] at h
        rcases h with rfl | rfl <;> rfl
      · exact scanCalls_not_blocking s.waitSet c h
  · refine ⟨[Call.wasNotified], ?_, ?_⟩
    · simp [preCheckState, hn]
    · intro c hc
      simp only [List.mem_singleton] at hc
      subst hc
      rfl

theorem callsMade_append (s : State Capacity) (s2 : State Capacity) (l : List Call)
    (h : s2.trace = s.trace ++ l) : callsMade s s2 = l := by
  simp [callsMade, h]

/-- The untimed wait() when the pre-check found nothing: it blocks, then scans. -/
theorem wait_of_empty (cv : ConditionVariableWaiter) (s : State Capacity)
    (h : preCheckEmpty cv s) :
    (wait cv s).1.data = fulfilledConditions s.waitSet (cv.wait (preCheckState cv s).world)
      ∧ (wait cv s).2 = ⟨s.waitSet, cv.wait (preCheckState cv s).world,
          (preCheckState cv s).trace ++ [Call.wait] ++ scanCalls s.waitSet⟩ := by
  unfold wait
  rw [waitAndReturn_of_empty cv _ s h]
  simp only [waitFunction, Bool.false_eq_true, if_false]
  rw [createVector_data, createVector_state]
  simp [preCheckState_waitSet]

/-- The timedWait(d) when the pre-check found nothing: it blocks, then scans when
the handle's timedWait reported true and returns the empty vector otherwise. -/
theorem timedWait_of_empty (cv : ConditionVariableWaiter) (d : Nat) (s : State Capacity)
    (h : preCheckEmpty cv s) :
    (timedWait cv d s).1.data
        = (if (cv.timedWait d (preCheckState cv s).world).1
            then fulfilledConditions s.waitSet (cv.timedWait d (preCheckState cv s).world).2
            else [])
      ∧ (timedWait cv d s).2 = ⟨s.waitSet, (cv.timedWait d (preCheckState cv s).world).2,
          (preCheckState cv s).trace ++ [Call.timedWait d] ++
            (if (cv.timedWait d (preCheckState cv s).world).1 then scanCalls s.waitSet else [])⟩ := by
  unfold timedWait
  rw [waitAndReturn_of_empty cv _ s h]
  cases ht : (cv.timedWait d (preCheckState cv s).world).1 with
  | true =>
    simp only [timedWaitFunction, ht, Bool.not_true, Bool.false_eq_true, if_false, if_true]
    rw [createVector_data, createVector_state]
    simp [preCheckState_waitSet]
  | false =>
    simp [timedWaitFunction, ht, vector.nil, preCheckState_waitSet]

/-- Claim C1.  For wait() and timedWait(d) on every WaitSet state and every
behaviour of the handle: a blocking operation of the handle is invoked if and
only if the pre-check produced nothing, that is iff wasNotified() is false or no
attached Trigger's hasTriggered() is true.  When wasNotified() is true and an
attached Trigger is fulfilled, its Condition is in the returned sequence and no
blocking call is made; when wasNotified() is false the call blocks. -/
theorem blocks_iff_preCheckEmpty (cv : ConditionVariableWaiter) (d : Nat) (s : State Capacity) :
    ((∃ c ∈ callsMade s (wait cv s).2, c.isBlocking = true) ↔
        ((cv.wasNotified s.world).1 = false ∨
          ∀ t ∈ s.waitSet.m_conditionVector.data, t.hasTriggered (preCheckWorld cv s) = false))
    ∧ ((∃ c ∈ callsMade s (timedWait cv d s).2, c.isBlocking = true) ↔
        ((cv.wasNotified s.world).1 = false ∨
          ∀ t ∈ s.waitSet.m_conditionVector.data, t.hasTriggered (preCheckWorld cv s) = false))
    ∧ (∀ t ∈ s.waitSet.m_conditionVector.data, (cv.wasNotified s.world).1 = true →
        t.hasTriggered (preCheckWorld cv s) = true →
          (t.m_condition ∈ (wait cv s).1.data ∧
            ∀ c ∈ callsMade s (wait cv s).2, c.isBlocking = false)
          ∧ (t.m_condition ∈ (timedWait cv d s).1.data ∧
            ∀ c ∈ callsMade s (timedWait cv d s).2, c.isBlocking = false))
    ∧ ((cv.wasNotified s.world).1 = false →
        Call.wait ∈ callsMade s (wait cv s).2 ∧
          Call.timedWait d ∈ callsMade s (timedWait cv d s).2) := by
  obtain ⟨pre, hpre, hnb⟩ := preCheckState_trace cv s
  -- the two cases of the pre-check
  have hfound : ¬ preCheckEmpty cv s →
      (∀ c ∈ callsMade s (wait cv s).2, c.isBlocking = false) ∧
      (∀ c ∈ callsMade s (timedWait cv d s).2, c.isBlocking = false) ∧
      (wait cv s).1.data = fulfilledConditions s.waitSet (preCheckWorld cv s) ∧
      (timedWait cv d s).1.data = fulfilledConditions s.waitSet (preCheckWorld cv s) := by
    intro h
    have hw := waitAndReturn_of_found cv (waitFunction cv) s h
    have ht := waitAndReturn_of_found cv (timedWaitFunction cv d) s h
    refine ⟨?_, ?_, hw.1, ht.1⟩
    · rw [callsMade_append s (wait cv s).2 pre (by unfold wait; rw [hw.2]; exact hpre)]
      exact hnb
    · rw [callsMade_append s (timedWait cv d s).2 pre (by unfold timedWait; rw [ht.2]; exact hpre)]
      exact hnb
  have hempty : preCheckEmpty cv s →
      Call.wait ∈ callsMade s (wait cv s).2 ∧
      Call.timedWait d ∈ callsMade s (timedWait cv d s).2 := by
    intro h
    have hw := (wait_of_empty cv s h).2
    have ht := (timedWait_of_empty cv d s h).2
    constructor
    · rw [callsMade_append s (wait cv s).2 (pre ++ [Call.wait] ++ scanCalls s.waitSet)
        (by rw [hw, hpre]; simp)]
      simp
    · rw [callsMade_append s (timedWait cv d s).2 (pre ++ [Call.timedWait d] ++
        (if (cv.timedWait d (preCheckState cv s).world).1 then scanCalls s.waitSet else []))
        (by rw [ht, hpre]; simp)]
      simp
  refine ⟨⟨?_, ?_⟩, ⟨?_, ?_⟩, ?_, ?_⟩
  · rintro ⟨c, hc, hb⟩
    by_contra hne
    have := (hfound hne).1 c hc
    rw [hb] at this
    exact absurd this (by decide)
  · intro h
    exact ⟨Call.wait, (hempty h).1, rfl⟩
  · rintro ⟨c, hc, hb⟩
    by_contra hne
    have := (hfound hne).2.1 c hc
    rw [hb] at this
    exact absurd this (by decide)
  · intro h
    exact ⟨Call.timedWait d, (hempty h).2, rfl⟩
  · intro t ht hn htrig
    have hne : ¬ preCheckEmpty cv s := by
      rintro (h | h)
      · rw [hn] at h; exact absurd h (by decide)
      · have := h t ht
        rw [htrig] at this
        exact absurd this (by decide)
    obtain ⟨h1, h2, h3, h4⟩ := hfound hne
    refine ⟨⟨?_, h1⟩, ?_, h2⟩
    · rw [h3, mem_fulfilledConditions]
      exact ⟨t, ht, htrig, rfl⟩
    · rw [h4, mem_fulfilledConditions]
      exact ⟨t, ht, htrig, rfl⟩
  · intro hn
    exact hempty (Or.inl hn)

/-! ### attach and attachCondition -/

theorem isConditionAttached_iff (ws : WaitSetData Capacity) (c : Nat) :
    isConditionAttached ws c = true ↔ ∃ t ∈ ws.m_conditionVector.data, t.m_condition = c := by
  simp [isConditionAttached, Trigger.eqAddr]

theorem isConditionAttached_eq_false_iff (ws : WaitSetData Capacity) (c : Nat) :
    isConditionAttached ws c = false ↔ ∀ t ∈ ws.m_conditionVector.data, t.m_condition ≠ c := by
  simp [isConditionAttached, Trigger.eqAddr]

theorem attach_of_attached (s : State Capacity) (c : Nat)
    (h : isConditionAttached s.waitSet c = true) :
    attach s c = (.ok s.waitSet.m_conditionVector.back, s) := by
  simp [attach, h]

theorem attach_of_full (s : State Capacity) (c : Nat)
    (h : isConditionAttached s.waitSet c = false)
    (hfull : ¬ s.waitSet.m_conditionVector.data.length < Capacity) :
    attach s c = (.error .CONDITION_VECTOR_OVERFLOW, s) := by
  simp [attach, h, vector.push_back_of_not_lt _ _ hfull]

theorem attach_of_room (s : State Capacity) (c : Nat)
    (h : isConditionAttached s.waitSet c = false)
    (hroom : s.waitSet.m_conditionVector.data.length < Capacity) :
    (attach s c).1 = .ok (Trigger.make c Condition.hasTriggeredMethod s.waitSet.m_conditionVariableDataPtr)
      ∧ (attach s c).2.waitSet.m_conditionVector.data = s.waitSet.m_conditionVector.data ++
          [Trigger.make c Condition.hasTriggeredMethod s.waitSet.m_conditionVariableDataPtr]
      ∧ (attach s c).2.waitSet.self = s.waitSet.self
      ∧ (attach s c).2.waitSet.m_conditionVariableDataPtr = s.waitSet.m_conditionVariableDataPtr
      ∧ (attach s c).2.world = s.world
      ∧ (attach s c).2.trace = s.trace := by
  have hp := vector.push_back_of_lt s.waitSet.m_conditionVector
    (Trigger.make c Condition.hasTriggeredMethod s.waitSet.m_conditionVariableDataPtr) hroom
  simp [attach, h, hp.1, hp.2, vector.back, List.getLastD_eq_getLast?]

theorem attachCondition_of_attached (s : State Capacity) (c : Nat)
    (h : isConditionAttached s.waitSet c = true) :
    attachCondition s c = (.ok (), s) := by
  simp [attachCondition, h]

theorem attachCondition_of_full (s : State Capacity) (c : Nat)
    (h : isConditionAttached s.waitSet c = false)
    (hfull : ¬ s.waitSet.m_conditionVector.data.length < Capacity) :
    attachCondition s c = (.error .CONDITION_VECTOR_OVERFLOW, s) := by
  simp [attachCondition, h, vector.push_back_of_not_lt _ _ hfull]

theorem attachCondition_of_room (s : State Capacity) (c : Nat)
    (h : isConditionAttached s.waitSet c = false)
    (hroom : s.waitSet.m_conditionVector.data.length < Capacity) :
    (attachCondition s c).1 = .ok ()
      ∧ (attachCondition s c).2.waitSet.m_conditionVector.data = s.waitSet.m_conditionVector.data ++
          [Trigger.make c Condition.hasTriggeredMethod s.waitSet.m_conditionVariableDataPtr]
      ∧ (attachCondition s c).2.waitSet.self = s.waitSet.self
      ∧ (attachCondition s c).2.waitSet.m_conditionVariableDataPtr = s.waitSet.m_conditionVariableDataPtr
      ∧ (attachCondition s c).2.world = Condition.attachConditionVariable s.world c s.waitSet.self
          s.waitSet.m_conditionVariableDataPtr
      ∧ (attachCondition s c).2.trace = s.trace ++
          [Call.attachConditionVariable c s.waitSet.self s.waitSet.m_conditionVariableDataPtr] := by
  have hp := vector.push_back_of_lt s.waitSet.m_conditionVector
    (Trigger.make c Condition.hasTriggeredMethod s.waitSet.m_conditionVariableDataPtr) hroom
  simp [attachCondition, h, hp.1, hp.2]

/-- Wherever attach calls back(), the vector is not empty. -/
theorem attach_back_defined (s : State Capacity) (c : Nat) (t : Trigger)
    (h : (attach s c).1 = .ok t) :
    (attach s c).2.waitSet.m_conditionVector.data ≠ [] ∧
      (attach s c).2.waitSet.m_conditionVector.data.getLast? = some t := by
  by_cases ha : isConditionAttached s.waitSet c = true
  · rw [attach_of_attached s c ha] at h ⊢
    obtain ⟨t0, ht0, _⟩ := (isConditionAttached_iff _ _).1 ha
    have hne : s.waitSet.m_conditionVector.data ≠ [] := List.ne_nil_of_mem ht0
    refine ⟨hne, ?_⟩
    simp only [Except.ok.injEq] at h
    rw [← h]
    simp [vector.back, List.getLastD_eq_getLast?, List.getLast?_eq_getLast _ hne]
  · have ha2 : isConditionAttached s.waitSet c = false := by
      cases hb : isConditionAttached s.waitSet c with
      | false => rfl
      | true => exact absurd hb ha
    by_cases hroom : s.waitSet.m_conditionVector.data.length < Capacity
    · obtain ⟨h1, h2, _⟩ := attach_of_room s c ha2 hroom
      rw [h1] at h
      simp only [Except.ok.injEq] at h
      rw [h2, ← h]
      simp
    · rw [attach_of_full s c ha2 hroom] at h
      cases h

theorem isConditionAttached_false_of_not (s : State Capacity) (c : Nat)
    (h : ¬ isConditionAttached s.waitSet c = true) : isConditionAttached s.waitSet c = false := by
  cases hb : isConditionAttached s.waitSet c with
  | false => rfl
  | true => exact absurd hb h

theorem size_eq_capacity_iff (v : vector Trigger Capacity) :
    ¬ v.data.length < Capacity ↔ v.data.length = Capacity := by
  have := v.size_le
  omega

theorem attach_error_iff (s : State Capacity) (c : Nat) :
    (attach s c).1 = .error .CONDITION_VECTOR_OVERFLOW ↔
      (isConditionAttached s.waitSet c = false ∧
        s.waitSet.m_conditionVector.data.length = Capacity) := by
  by_cases ha : isConditionAttached s.waitSet c = true
  · rw [attach_of_attached s c ha]
    simp [ha]
  · have ha2 := isConditionAttached_false_of_not s c ha
    by_cases hroom : s.waitSet.m_conditionVector.data.length < Capacity
    · rw [(attach_of_room s c ha2 hroom).1]
      simp only [ha2, true_and]
      constructor
      · intro h; cases h
      · intro h; omega
    · rw [attach_of_full s c ha2 hroom]
      simp only [ha2, true_and, true_iff]
      exact (size_eq_capacity_iff _).1 hroom

theorem attachCondition_error_iff (s : State Capacity) (c : Nat) :
    (attachCondition s c).1 = .error .CONDITION_VECTOR_OVERFLOW ↔
      (isConditionAttached s.waitSet c = false ∧
        s.waitSet.m_conditionVector.data.length = Capacity) := by
  by_cases ha : isConditionAttached s.waitSet c = true
  · rw [attachCondition_of_attached s c ha]
    simp [ha]
  · have ha2 := isConditionAttached_false_of_not s c ha
    by_cases hroom : s.waitSet.m_conditionVector.data.length < Capacity
    · rw [(attachCondition_of_room s c ha2 hroom).1]
      simp only [ha2, true_and]
      constructor
      · intro h; cases h
      · intro h; omega
    · rw [attachCondition_of_full s c ha2 hroom]
      simp only [ha2, true_and, true_iff]
      exact (size_eq_capacity_iff _).1 hroom

theorem attach_error_state (s : State Capacity) (c : Nat)
    (h : (attach s c).1 = .error .CONDITION_VECTOR_OVERFLOW) : (attach s c).2 = s := by
  obtain ⟨ha, hlen⟩ := (attach_error_iff s c).1 h
  rw [attach_of_full s c ha (by omega)]

theorem attachCondition_error_state (s : State Capacity) (c : Nat)
    (h : (attachCondition s c).1 = .error .CONDITION_VECTOR_OVERFLOW) :
    (attachCondition s c).2 = s := by
  obtain ⟨ha, hlen⟩ := (attachCondition_error_iff s c).1 h
  rw [attachCondition_of_full s c ha (by omega)]

theorem not_attached_after_append (s s2 : State Capacity) (c c2 : Nat) (hne : c2 ≠ c)
    (hd : s2.waitSet.m_conditionVector.data = s.waitSet.m_conditionVector.data ++
      [Trigger.make c Condition.hasTriggeredMethod s.waitSet.m_conditionVariableDataPtr])
    (h : isConditionAttached s.waitSet c2 = false) :
    isConditionAttached s2.waitSet c2 = false := by
  rw [isConditionAttached_eq_false_iff] at h ⊢
  intro t ht
  rw [hd, List.mem_append] at ht
  rcases ht with ht | ht
  · exact h t ht
  · simp only [List.mem_singleton] at ht
    subst ht
    exact fun heq => hne heq.symm

theorem attachEach_spec (cs : List Nat) :
    ∀ s : State Capacity, cs.Nodup →
      (∀ c ∈ cs, isConditionAttached s.waitSet c = false) →
      (attachEach s cs).1
          = (cs.take (Capacity - s.waitSet.m_conditionVector.data.length)).map
              (fun c => Except.ok
                (Trigger.make c Condition.hasTriggeredMethod s.waitSet.m_conditionVariableDataPtr))
            ++ (cs.drop (Capacity - s.waitSet.m_conditionVector.data.length)).map
              (fun _ => Except.error WaitSetError.CONDITION_VECTOR_OVERFLOW)
        ∧ (attachEach s cs).2.waitSet.m_conditionVector.data.length
          = min Capacity (s.waitSet.m_conditionVector.data.length + cs.length) := by
  induction cs with
  | nil =>
    intro s _ _
    have := s.waitSet.m_conditionVector.size_le
    simp [attachEach]
    omega
  | cons c cs ih =>
    intro s hnd hna
    have hc := hna c (List.mem_cons_self c cs)
    have hnd2 : cs.Nodup := (List.nodup_cons.1 hnd).2
    have hcnot : c ∉ cs := (List.nodup_cons.1 hnd).1
    by_cases hroom : s.waitSet.m_conditionVector.data.length < Capacity
    · obtain ⟨h1, h2, _, h4, _, _⟩ := attach_of_room s c hc hroom
      have hna2 : ∀ c2 ∈ cs, isConditionAttached (attach s c).2.waitSet c2 = false := by
        intro c2 hc2
        exact not_attached_after_append s (attach s c).2 c c2
          (fun h => hcnot (h ▸ hc2)) h2 (hna c2 (List.mem_cons_of_mem c hc2))
      obtain ⟨ih1, ih2⟩ := ih (attach s c).2 hnd2 hna2
      have hk : Capacity - s.waitSet.m_conditionVector.data.length
          = (Capacity - (attach s c).2.waitSet.m_conditionVector.data.length) + 1 := by
        rw [h2]
        simp only [List.length_append, List.length_singleton]
        omega
      refine ⟨?_, ?_⟩
      · simp only [attachEach]
        rw [ih1, h1, hk, h4]
        simp
      · simp only [attachEach]
        rw [ih2, h2]
        simp only [List.length_append, List.length_singleton, List.length_cons, List.length_nil]
        omega
    · have hst := attach_of_full s c hc hroom
      have hna2 : ∀ c2 ∈ cs, isConditionAttached s.waitSet c2 = false :=
        fun c2 hc2 => hna c2 (List.mem_cons_of_mem c hc2)
      obtain ⟨ih1, ih2⟩ := ih s hnd2 hna2
      have hk : Capacity - s.waitSet.m_conditionVector.data.length = 0 := by omega
      refine ⟨?_, ?_⟩
      · simp only [attachEach]
        rw [hst]
        simp only []
        rw [ih1, hk]
        simp
      · simp only [attachEach]
        rw [hst]
        simp only []
        rw [ih2]
        simp only [List.length_cons]
        omega

theorem attachConditionEach_spec (cs : List Nat) :
    ∀ s : State Capacity, cs.Nodup →
      (∀ c ∈ cs, isConditionAttached s.waitSet c = false) →
      (attachConditionEach s cs).1
          = (cs.take (Capacity - s.waitSet.m_conditionVector.data.length)).map
              (fun _ => Except.ok ())
            ++ (cs.drop (Capacity - s.waitSet.m_conditionVector.data.length)).map
              (fun _ => Except.error WaitSetError.CONDITION_VECTOR_OVERFLOW)
        ∧ (attachConditionEach s cs).2.waitSet.m_conditionVector.data.length
          = min Capacity (s.waitSet.m_conditionVector.data.length + cs.length) := by
  induction cs with
  | nil =>
    intro s _ _
    have := s.waitSet.m_conditionVector.size_le
    simp [attachConditionEach]
    omega
  | cons c cs ih =>
    intro s hnd hna
    have hc := hna c (List.mem_cons_self c cs)
    have hnd2 : cs.Nodup := (List.nodup_cons.1 hnd).2
    have hcnot : c ∉ cs := (List.nodup_cons.1 hnd).1
    by_cases hroom : s.waitSet.m_conditionVector.data.length < Capacity
    · obtain ⟨h1, h2, _, h4, _, _⟩ := attachCondition_of_room s c hc hroom
      have hna2 : ∀ c2 ∈ cs, isConditionAttached (attachCondition s c).2.waitSet c2 = false := by
        intro c2 hc2
        exact not_attached_after_append s (attachCondition s c).2 c c2
          (fun h => hcnot (h ▸ hc2)) h2 (hna c2 (List.mem_cons_of_mem c hc2))
      obtain ⟨ih1, ih2⟩ := ih (attachCondition s c).2 hnd2 hna2
      have hk : Capacity - s.waitSet.m_conditionVector.data.length
          = (Capacity - (attachCondition s c).2.waitSet.m_conditionVector.data.length) + 1 := by
        rw [h2]
        simp only [List.length_append, List.length_singleton]
        omega
      refine ⟨?_, ?_⟩
      · simp only [attachConditionEach]
        rw [ih1, h1, hk]
        simp
      · simp only [attachConditionEach]
        rw [ih2, h2]
        simp only [List.length_append, List.length_singleton, List.length_cons, List.length_nil]
        omega
    · have hst := attachCondition_of_full s c hc hroom
      have hna2 : ∀ c2 ∈ cs, isConditionAttached s.waitSet c2 = false :=
        fun c2 hc2 => hna c2 (List.mem_cons_of_mem c hc2)
      obtain ⟨ih1, ih2⟩ := ih s hnd2 hna2
      have hk : Capacity - s.waitSet.m_conditionVector.data.length = 0 := by omega
      refine ⟨?_, ?_⟩
      · simp only [attachConditionEach]
        rw [hst]
        simp only []
        rw [ih1, hk]
        simp
      · simp only [attachConditionEach]
        rw [hst]
        simp only []
        rw [ih2]
        simp only [List.length_cons]
        omega

theorem attached_after_attach_of_room (s : State Capacity) (c : Nat)
    (h : isConditionAttached s.waitSet c = false)
    (hroom : s.waitSet.m_conditionVector.data.length < Capacity) :
    isConditionAttached (attach s c).2.waitSet c = true := by
  rw [isConditionAttached_iff, (attach_of_room s c h hroom).2.1]
  exact ⟨_, List.mem_append_right _ (List.mem_singleton_self _), rfl⟩

theorem attached_after_attachCondition_of_room (s : State Capacity) (c : Nat)
    (h : isConditionAttached s.waitSet c = false)
    (hroom : s.waitSet.m_conditionVector.data.length < Capacity) :
    isConditionAttached (attachCondition s c).2.waitSet c = true := by
  rw [isConditionAttached_iff, (attachCondition_of_room s c h hroom).2.1]
  exact ⟨_, List.mem_append_right _ (List.mem_singleton_self _), rfl⟩

/-- Claim C5, the code at the failing input attach(A), attach(B), attach(A) with
A = 10 and B = 20: the first attach(A) returns the Trigger of A, the second one
returns the last Trigger of the collection, which is the Trigger of B and does
not compare equal to the address of A. -/
theorem attach_again_returns_back :
    (attach (construct 100 200 ⟨fun _ _ => false, fun _ => none⟩ : State 2) 10).1
        = .ok (Trigger.make 10 Condition.hasTriggeredMethod 200)
      ∧ (attach (attach (attach (construct 100 200 ⟨fun _ _ => false, fun _ => none⟩ : State 2)
            10).2 20).2 10).1
        = .ok (Trigger.make 20 Condition.hasTriggeredMethod 200)
      ∧ (Trigger.make 20 Condition.hasTriggeredMethod 200).eqAddr 10 = false
      ∧ (Trigger.make 20 Condition.hasTriggeredMethod 200).eq
          (Trigger.make 10 Condition.hasTriggeredMethod 200) = false := by
  refine ⟨rfl, rfl, rfl, rfl⟩

/-- Claim C6.  attach(c) and attachCondition(c) return CONDITION_VECTOR_OVERFLOW if
and only if c is not yet attached and the collection already holds Capacity
Triggers; a failing call leaves the whole state as it was (collection unchanged,
no attachment recorded on c, no call made).  Attaching Capacity + 1 pairwise
distinct Conditions to a fresh WaitSet succeeds Capacity times and fails exactly
on the last one, the collection ending with Capacity Triggers. -/
theorem overflow_iff_new_and_full (s : State Capacity) (c : Nat) :
    ((attach s c).1 = .error .CONDITION_VECTOR_OVERFLOW ↔
        (isConditionAttached s.waitSet c = false ∧
          s.waitSet.m_conditionVector.data.length = Capacity))
    ∧ ((attachCondition s c).1 = .error .CONDITION_VECTOR_OVERFLOW ↔
        (isConditionAttached s.waitSet c = false ∧
          s.waitSet.m_conditionVector.data.length = Capacity))
    ∧ ((attach s c).1 = .error .CONDITION_VECTOR_OVERFLOW → (attach s c).2 = s)
    ∧ ((attachCondition s c).1 = .error .CONDITION_VECTOR_OVERFLOW →
        (attachCondition s c).2 = s)
    ∧ (∀ (cs : List Nat) (self handle : Nat) (w : World),
        cs.Nodup → cs.length = Capacity + 1 →
          (∀ r ∈ (attachEach (construct self handle w : State Capacity) cs).1.take Capacity,
              ∃ t, r = Except.ok t)
          ∧ (attachEach (construct self handle w : State Capacity) cs).1.drop Capacity
              = [Except.error WaitSetError.CONDITION_VECTOR_OVERFLOW]
          ∧ (attachEach (construct self handle w : State Capacity) cs).2.waitSet.m_conditionVector.data.length
              = Capacity
          ∧ (∀ r ∈ (attachConditionEach (construct self handle w : State Capacity) cs).1.take Capacity,
              r = Except.ok ())
          ∧ (attachConditionEach (construct self handle w : State Capacity) cs).1.drop Capacity
              = [Except.error WaitSetError.CONDITION_VECTOR_OVERFLOW]
          ∧ (attachConditionEach (construct self handle w : State Capacity) cs).2.waitSet.m_conditionVector.data.length
              = Capacity) := by
  refine ⟨attach_error_iff s c, attachCondition_error_iff s c, attach_error_state s c,
    attachCondition_error_state s c, ?_⟩
  intro cs self handle w hnd hlen
  have hna : ∀ c2 ∈ cs, isConditionAttached (construct self handle w : State Capacity).waitSet c2
      = false := by
    intro c2 _
    rfl
  obtain ⟨h1, h2⟩ := attachEach_spec cs (construct self handle w : State Capacity) hnd hna
  obtain ⟨h3, h4⟩ := attachConditionEach_spec cs (construct self handle w : State Capacity) hnd hna
  have hsz : (construct self handle w : State Capacity).waitSet.m_conditionVector.data.length
      = 0 := rfl
  rw [hsz] at h1 h2 h3 h4
  simp only [Nat.sub_zero, Nat.zero_add] at h1 h2 h3 h4
  have htl : (cs.take Capacity).length = Capacity := by
    rw [List.length_take]; omega
  obtain ⟨x, hx⟩ : ∃ x, cs.drop Capacity = [x] := by
    have hdl : (cs.drop Capacity).length = 1 := by
      rw [List.length_drop]; omega
    exact List.length_eq_one.1 hdl
  refine ⟨?_, ?_, ?_, ?_, ?_, ?_⟩
  · intro r hr
    rw [h1, List.take_left' (by rw [List.length_map]; exact htl)] at hr
    obtain ⟨c2, _, rfl⟩ := List.mem_map.1 hr
    exact ⟨_, rfl⟩
  · rw [h1, List.drop_left' (by rw [List.length_map]; exact htl), hx]
    rfl
  · rw [h2]; omega
  · intro r hr
    rw [h3, List.take_left' (by rw [List.length_map]; exact htl)] at hr
    obtain ⟨c2, _, rfl⟩ := List.mem_map.1 hr
    rfl
  · rw [h3, List.drop_left' (by rw [List.length_map]; exact htl), hx]
    rfl
  · rw [h4]; omega

/-- Witness of C6: with Capacity 2, attaching 1, 2, 3 to a fresh WaitSet gives two
successes and then the overflow, and the third attach leaves the state as it was. -/
theorem overflow_iff_new_and_full_witness :
    [1, 2, 3].Nodup ∧ [1, 2, 3].length = 2 + 1
      ∧ (attachEach (construct 100 200 ⟨fun _ _ => false, fun _ => none⟩ : State 2)
          [1, 2, 3]).1.drop 2 = [Except.error WaitSetError.CONDITION_VECTOR_OVERFLOW]
      ∧ (attach (attach (attach (construct 100 200 ⟨fun _ _ => false, fun _ => none⟩ : State 2)
            1).2 2).2 3).2
        = (attach (attach (construct 100 200 ⟨fun _ _ => false, fun _ => none⟩ : State 2) 1).2 2).2 :=
  ⟨by decide, rfl,
    ((overflow_iff_new_and_full
      (construct 100 200 ⟨fun _ _ => false, fun _ => none⟩ : State 2) 0).2.2.2.2
        [1, 2, 3] 100 200 ⟨fun _ _ => false, fun _ => none⟩ (by decide) rfl).2.1,
    (overflow_iff_new_and_full
      (attach (attach (construct 100 200 ⟨fun _ _ => false, fun _ => none⟩ : State 2) 1).2 2).2
      3).2.2.1 rfl⟩

/-- Claim C7.  For a Condition c that is not yet attached and a WaitSet holding fewer
than Capacity Triggers, attach(c) returns success with a Trigger whose condition
is c, whose callback is bound to hasTriggered of c and whose handle is the handle
of the WaitSet; the collection afterwards is the previous collection with exactly
that Trigger appended; the rest of the WaitSet, the World (so the attachment
record of c) and the trace (no attachConditionVariable call) are as before. -/
theorem attach_new_appends_trigger (s : State Capacity) (c : Nat)
    (h : isConditionAttached s.waitSet c = false)
    (hroom : s.waitSet.m_conditionVector.data.length < Capacity) :
    ∃ t : Trigger, (attach s c).1 = .ok t
      ∧ t.m_condition = c
      ∧ t.m_hasTriggeredCall = ⟨c, Condition.hasTriggeredMethod⟩
      ∧ (∀ w : World, t.hasTriggered w = Condition.hasTriggered w c)
      ∧ t.m_conditionVariableDataPtr = s.waitSet.m_conditionVariableDataPtr
      ∧ (attach s c).2.waitSet.m_conditionVector.data = s.waitSet.m_conditionVector.data ++ [t]
      ∧ (attach s c).2.waitSet.self = s.waitSet.self
      ∧ (attach s c).2.waitSet.m_conditionVariableDataPtr = s.waitSet.m_conditionVariableDataPtr
      ∧ (attach s c).2.world = s.world
      ∧ (attach s c).2.trace = s.trace := by
  obtain ⟨h1, h2, h3, h4, h5, h6⟩ := attach_of_room s c h hroom
  exact ⟨Trigger.make c Condition.hasTriggeredMethod s.waitSet.m_conditionVariableDataPtr,
    h1, rfl, rfl, fun _ => rfl, rfl, h2, h3, h4, h5, h6⟩

/-- Witness of C7: attach(20) on a WaitSet of capacity 2 that holds only 10. -/
theorem attach_new_appends_trigger_witness :
    isConditionAttached
        (attach (construct 100 200 ⟨fun _ _ => false, fun _ => none⟩ : State 2) 10).2.waitSet 20
        = false
      ∧ (attach (construct 100 200 ⟨fun _ _ => false, fun _ => none⟩ : State 2)
          10).2.waitSet.m_conditionVector.data.length < 2
      ∧ ∃ t : Trigger,
          (attach (attach (construct 100 200 ⟨fun _ _ => false, fun _ => none⟩ : State 2) 10).2
            20).1 = .ok t ∧ t.m_condition = 20 :=
  ⟨rfl, by decide,
    (attach_new_appends_trigger
      (attach (construct 100 200 ⟨fun _ _ => false, fun _ => none⟩ : State 2) 10).2 20 rfl
      (by decide)).imp (fun _ ht => ⟨ht.1, ht.2.1⟩)⟩

/-- Counterexample to C8 as stated: after attach(10), attachCondition(10) returns
success although no attachment is recorded on the Condition and
attachConditionVariable is not called. -/
theorem attachCondition_after_attach_records_nothing :
    (attachCondition (attach (construct 100 200 ⟨fun _ _ => false, fun _ => none⟩ : State 2)
        10).2 10).1 = .ok ()
      ∧ (attachCondition (attach (construct 100 200 ⟨fun _ _ => false, fun _ => none⟩ : State 2)
          10).2 10).2.world.attachment 10 = none
      ∧ (attachCondition (attach (construct 100 200 ⟨fun _ _ => false, fun _ => none⟩ : State 2)
          10).2 10).2.trace = [] := by
  refine ⟨rfl, rfl, rfl⟩

/-- Claim C8 as amended.  If attachCondition(c) returns success then the collection
afterwards contains a Trigger for c; when c was not in the collection before the
call, attachConditionVariable(this, handle) has been applied to c, so that the
recorded attachment of c names this WaitSet and its handle; when c already was in
the collection, the call changes nothing at all. -/
theorem attachCondition_success_effect (s : State Capacity) (c : Nat)
    (h : (attachCondition s c).1 = .ok ()) :
    isConditionAttached (attachCondition s c).2.waitSet c = true
      ∧ (isConditionAttached s.waitSet c = false →
          (attachCondition s c).2.world.attachment c
              = some (s.waitSet.self, s.waitSet.m_conditionVariableDataPtr)
            ∧ Condition.isConditionVariableAttached (attachCondition s c).2.world c = true
            ∧ (attachCondition s c).2.trace = s.trace ++
                [Call.attachConditionVariable c s.waitSet.self s.waitSet.m_conditionVariableDataPtr])
      ∧ (isConditionAttached s.waitSet c = true → (attachCondition s c).2 = s) := by
  by_cases ha : isConditionAttached s.waitSet c = true
  · refine ⟨?_, ?_, ?_⟩
    · rw [attachCondition_of_attached s c ha]; exact ha
    · intro hf; rw [ha] at hf; cases hf
    · intro _; rw [attachCondition_of_attached s c ha]
  · have ha2 := isConditionAttached_false_of_not s c ha
    have hroom : s.waitSet.m_conditionVector.data.length < Capacity := by
      by_contra hfull
      rw [attachCondition_of_full s c ha2 hfull] at h
      cases h
    obtain ⟨_, _, _, _, h5, h6⟩ := attachCondition_of_room s c ha2 hroom
    refine ⟨attached_after_attachCondition_of_room s c ha2 hroom, ?_, ?_⟩
    · intro _
      refine ⟨?_, ?_, h6⟩
      · rw [h5]; simp [Condition.attachConditionVariable]
      · rw [h5]; simp [Condition.attachConditionVariable, Condition.isConditionVariableAttached]
    · intro ht; exact absurd ht ha

/-- Witness of C8 as amended: attachCondition(10) on a fresh WaitSet. -/
theorem attachCondition_success_effect_witness :
    (attachCondition (construct 100 200 ⟨fun _ _ => false, fun _ => none⟩ : State 2) 10).1
        = .ok ()
      ∧ isConditionAttached
          (attachCondition (construct 100 200 ⟨fun _ _ => false, fun _ => none⟩ : State 2)
            10).2.waitSet 10 = true :=
  ⟨rfl, (attachCondition_success_effect
    (construct 100 200 ⟨fun _ _ => false, fun _ => none⟩ : State 2) 10 rfl).1⟩

/-- Claim C9.  Attaching is idempotent on the collection: when c is already
attached, attach(c) and attachCondition(c) return success and leave the whole
state, hence the collection, unchanged, whether or not the collection is full;
and a second attach(c) (or attachCondition(c)) right after a first one changes
nothing any more. -/
theorem attach_attached_is_noop (s : State Capacity) (c : Nat) :
    (isConditionAttached s.waitSet c = true →
        (∃ t, (attach s c).1 = .ok t) ∧ (attach s c).2 = s
          ∧ (attachCondition s c).1 = .ok () ∧ (attachCondition s c).2 = s)
    ∧ (attach (attach s c).2 c).2 = (attach s c).2
    ∧ (attachCondition (attachCondition s c).2 c).2 = (attachCondition s c).2 := by
  refine ⟨?_, ?_, ?_⟩
  · intro ha
    rw [attach_of_attached s c ha, attachCondition_of_attached s c ha]
    exact ⟨⟨_, rfl⟩, rfl, rfl, rfl⟩
  · by_cases ha : isConditionAttached s.waitSet c = true
    · rw [attach_of_attached s c ha]
      simp only []
      rw [attach_of_attached s c ha]
    · have ha2 := isConditionAttached_false_of_not s c ha
      by_cases hroom : s.waitSet.m_conditionVector.data.length < Capacity
      · rw [attach_of_attached _ c (attached_after_attach_of_room s c ha2 hroom)]
      · rw [attach_of_full s c ha2 hroom]
        simp only []
        rw [attach_of_full s c ha2 hroom]
  · by_cases ha : isConditionAttached s.waitSet c = true
    · rw [attachCondition_of_attached s c ha]
      simp only []
      rw [attachCondition_of_attached s c ha]
    · have ha2 := isConditionAttached_false_of_not s c ha
      by_cases hroom : s.waitSet.m_conditionVector.data.length < Capacity
      · rw [attachCondition_of_attached _ c (attached_after_attachCondition_of_room s c ha2 hroom)]
      · rw [attachCondition_of_full s c ha2 hroom]
        simp only []
        rw [attachCondition_of_full s c ha2 hroom]

/-- Witness of C9: a full WaitSet of capacity 2 holding 10 and 20, attach(10). -/
theorem attach_attached_is_noop_witness :
    isConditionAttached
        (attach (attach (construct 100 200 ⟨fun _ _ => false, fun _ => none⟩ : State 2)
          10).2 20).2.waitSet 10 = true
      ∧ (attach (attach (attach (construct 100 200 ⟨fun _ _ => false, fun _ => none⟩ : State 2)
          10).2 20).2 10).2
        = (attach (attach (construct 100 200 ⟨fun _ _ => false, fun _ => none⟩ : State 2)
          10).2 20).2 :=
  ⟨rfl, ((attach_attached_is_noop
    (attach (attach (construct 100 200 ⟨fun _ _ => false, fun _ => none⟩ : State 2) 10).2 20).2
    10).1 rfl).2.1⟩

/-! ### detachCondition, remove, detachAllConditions -/

theorem detachCondition_waitSet (s : State Capacity) (c : Nat) :
    (detachCondition s c).waitSet = s.waitSet := by
  unfold detachCondition
  simp only []
  split <;> rfl

theorem findIdx_erase_eq_eraseP (p : Trigger → Bool) (l : List Trigger) :
    (match l.findIdx? p with
      | some i => l.eraseIdx i
      | none => l) = l.eraseP p := by
  induction l with
  | nil => simp
  | cons x xs ih =>
    by_cases hx : p x = true
    · simp [List.findIdx?_cons, hx]
    · simp only [List.findIdx?_cons, hx, Bool.false_eq_true, if_false, Nat.zero_add,
        List.findIdx?_succ, List.eraseP_cons_of_neg hx, ← ih]
      cases List.findIdx? p xs with
      | none => simp
      | some i => simp

theorem remove_data (s : State Capacity) (entry : Nat) :
    (remove s entry).waitSet.m_conditionVector.data
      = s.waitSet.m_conditionVector.data.eraseP (fun t => t.eqAddr entry) := by
  rw [← findIdx_erase_eq_eraseP]
  unfold remove
  cases List.findIdx? (fun t => t.eqAddr entry) s.waitSet.m_conditionVector.data with
  | none => rfl
  | some i => rfl

theorem remove_handle (s : State Capacity) (entry : Nat) :
    (remove s entry).waitSet.m_conditionVariableDataPtr = s.waitSet.m_conditionVariableDataPtr := by
  unfold remove
  split <;> rfl

theorem eraseP_no_match (l : List Trigger) (entry : Nat)
    (hnd : (l.map (fun t => t.m_condition)).Nodup) :
    ∀ t ∈ l.eraseP (fun t => t.eqAddr entry), t.m_condition ≠ entry := by
  induction l with
  | nil => intro t ht; simp at ht
  | cons x xs ih =>
    have hx : x.m_condition ∉ xs.map (fun t => t.m_condition) := (List.nodup_cons.1 hnd).1
    have hxs : (xs.map (fun t => t.m_condition)).Nodup := (List.nodup_cons.1 hnd).2
    by_cases hp : x.eqAddr entry = true
    · rw [List.eraseP_cons]
      simp only [hp, cond_true]
      intro t ht heq
      have hxe : x.m_condition = entry := by simpa [Trigger.eqAddr] using hp
      exact hx (List.mem_map.2 ⟨t, ht, by rw [heq, hxe]⟩)
    · rw [List.eraseP_cons]
      simp only [hp, cond_false]
      intro t ht
      rcases List.mem_cons.1 ht with rfl | ht
      · simpa [Trigger.eqAddr] using hp
      · exact ih hxs t ht

theorem detachAll_foldl (l : List Trigger) :
    ∀ acc : State Capacity,
      l.foldl (fun (acc : State Capacity) currentCondition =>
          ({ acc with
            world := Condition.detachConditionVariable acc.world currentCondition.m_condition
            trace := acc.trace ++ [Call.detachConditionVariable currentCondition.m_condition] } :
            State Capacity)) acc
        = ⟨acc.waitSet,
            l.foldl (fun w t => Condition.detachConditionVariable w t.m_condition) acc.world,
            acc.trace ++ l.map (fun t => Call.detachConditionVariable t.m_condition)⟩ := by
  induction l with
  | nil => intro acc; simp
  | cons t ts ih =>
    intro acc
    simp only [List.foldl_cons]
    rw [ih]
    simp

/-- What detachAllConditions does: one detachConditionVariable() per held Trigger,
in collection order, then an empty collection. -/
theorem detachAllConditions_eq (s : State Capacity) :
    detachAllConditions s
      = ⟨⟨s.waitSet.self, s.waitSet.m_conditionVariableDataPtr, vector.nil⟩,
          s.waitSet.m_conditionVector.data.foldl
            (fun w t => Condition.detachConditionVariable w t.m_condition) s.world,
          s.trace ++ s.waitSet.m_conditionVector.data.map
            (fun t => Call.detachConditionVariable t.m_condition)⟩ := by
  unfold detachAllConditions
  simp only []
  rw [detachAll_foldl]
  rfl

/-! ### wait and timedWait leave the WaitSet alone -/

theorem wait_waitSet (cv : ConditionVariableWaiter) (s : State Capacity) :
    (wait cv s).2.waitSet = s.waitSet := by
  by_cases h : preCheckEmpty cv s
  · rw [(wait_of_empty cv s h).2]
  · unfold wait
    rw [(waitAndReturn_of_found cv _ s h).2, preCheckState_waitSet]

theorem timedWait_waitSet (cv : ConditionVariableWaiter) (d : Nat) (s : State Capacity) :
    (timedWait cv d s).2.waitSet = s.waitSet := by
  by_cases h : preCheckEmpty cv s
  · rw [(timedWait_of_empty cv d s h).2]
  · unfold timedWait
    rw [(waitAndReturn_of_found cv _ s h).2, preCheckState_waitSet]

theorem wellFormed_of_append (ws ws2 : WaitSetData Capacity) (c : Nat)
    (hwf : WellFormed ws) (hc : isConditionAttached ws c = false)
    (hd : ws2.m_conditionVector.data = ws.m_conditionVector.data ++
      [Trigger.make c Condition.hasTriggeredMethod ws.m_conditionVariableDataPtr])
    (hh : ws2.m_conditionVariableDataPtr = ws.m_conditionVariableDataPtr) :
    WellFormed ws2 := by
  obtain ⟨hnd, hall⟩ := hwf
  rw [isConditionAttached_eq_false_iff] at hc
  refine ⟨?_, ?_⟩
  · rw [hd, List.map_append, List.nodup_append]
    refine ⟨hnd, by simp, ?_⟩
    intro a ha hb
    obtain ⟨t, ht, rfl⟩ := List.mem_map.1 ha
    simp only [List.map_cons, List.map_nil, List.mem_singleton] at hb
    exact hc t ht hb
  · intro t ht
    rw [hd, List.mem_append] at ht
    rw [hh]
    rcases ht with ht | ht
    · exact hall t ht
    · simp only [List.mem_singleton] at ht
      rw [ht]
      rfl

theorem wellFormed_attach (s : State Capacity) (c : Nat) (hwf : WellFormed s.waitSet) :
    WellFormed (attach s c).2.waitSet := by
  by_cases ha : isConditionAttached s.waitSet c = true
  · rw [attach_of_attached s c ha]; exact hwf
  · have ha2 := isConditionAttached_false_of_not s c ha
    by_cases hroom : s.waitSet.m_conditionVector.data.length < Capacity
    · obtain ⟨_, h2, _, h4, _, _⟩ := attach_of_room s c ha2 hroom
      exact wellFormed_of_append s.waitSet _ c hwf ha2 h2 h4
    · rw [attach_of_full s c ha2 hroom]; exact hwf

theorem wellFormed_attachCondition (s : State Capacity) (c : Nat) (hwf : WellFormed s.waitSet) :
    WellFormed (attachCondition s c).2.waitSet := by
  by_cases ha : isConditionAttached s.waitSet c = true
  · rw [attachCondition_of_attached s c ha]; exact hwf
  · have ha2 := isConditionAttached_false_of_not s c ha
    by_cases hroom : s.waitSet.m_conditionVector.data.length < Capacity
    · obtain ⟨_, h2, _, h4, _, _⟩ := attachCondition_of_room s c ha2 hroom
      exact wellFormed_of_append s.waitSet _ c hwf ha2 h2 h4
    · rw [attachCondition_of_full s c ha2 hroom]; exact hwf

theorem wellFormed_remove (s : State Capacity) (entry : Nat) (hwf : WellFormed s.waitSet) :
    WellFormed (remove s entry).waitSet := by
  obtain ⟨hnd, hall⟩ := hwf
  refine ⟨?_, ?_⟩
  · rw [remove_data]
    exact List.Nodup.sublist ((List.eraseP_sublist _).map _) hnd
  · intro t ht
    rw [remove_data] at ht
    rw [remove_handle]
    exact hall t (List.mem_of_mem_eraseP ht)

theorem reachable_wellFormed {s : State Capacity} (h : Reachable s) : WellFormed s.waitSet := by
  induction h with
  | by_construct self handle w =>
    refine ⟨?_, ?_⟩
    · simp [construct, vector.nil]
    · intro t ht
      simp [construct, vector.nil] at ht
  | by_attach c _ ih => exact wellFormed_attach _ c ih
  | by_attachCondition c _ ih => exact wellFormed_attachCondition _ c ih
  | by_detachCondition c _ ih => rw [detachCondition_waitSet]; exact ih
  | by_remove entry _ ih => exact wellFormed_remove _ entry ih
  | by_detachAllConditions _ _ =>
    rw [detachAllConditions_eq]
    refine ⟨?_, ?_⟩
    · simp [vector.nil]
    · intro t ht
      simp [vector.nil] at ht
  | by_wait cv _ ih => rw [wait_waitSet]; exact ih
  | by_timedWait cv d _ ih => rw [timedWait_waitSet]; exact ih

theorem fulfilledConditions_nodup (ws : WaitSetData Capacity) (w : World) (hwf : WellFormed ws) :
    (fulfilledConditions ws w).Nodup :=
  List.Nodup.sublist ((List.filter_sublist _).map _) hwf.1

theorem mem_fulfilledConditions_of_wellFormed (ws : WaitSetData Capacity) (w : World)
    (hwf : WellFormed ws) (c : Nat) :
    c ∈ fulfilledConditions ws w ↔
      (isConditionAttached ws c = true ∧ Condition.hasTriggered w c = true) := by
  rw [mem_fulfilledConditions, isConditionAttached_iff]
  constructor
  · rintro ⟨t, ht, htrig, rfl⟩
    refine ⟨⟨t, ht, rfl⟩, ?_⟩
    have h := hwf.2 t ht
    rw [h] at htrig
    exact htrig
  · rintro ⟨⟨t, ht, rfl⟩, htrig⟩
    refine ⟨t, ht, ?_, rfl⟩
    have h := hwf.2 t ht
    rw [h]
    exact htrig

/-! ### What wait() and timedWait() return -/

/-- Claim C2.  On every WaitSet reachable through the public operations and for every
behaviour of the handle, the sequence returned by wait() or timedWait(d) is either
empty or exactly the scan: the pre-check scan when that found something, the scan
after blocking otherwise.  The scan lists, in collection order and each Condition
once, exactly the attached Conditions whose hasTriggered() is true at that moment. -/
theorem wait_result_empty_or_scan (cv : ConditionVariableWaiter) (d : Nat) (s : State Capacity)
    (hs : Reachable s) :
    ((wait cv s).1.data = [] ∨
        (wait cv s).1.data = fulfilledConditions s.waitSet (preCheckWorld cv s) ∨
        (wait cv s).1.data = fulfilledConditions s.waitSet (cv.wait (preCheckState cv s).world))
    ∧ ((timedWait cv d s).1.data = [] ∨
        (timedWait cv d s).1.data = fulfilledConditions s.waitSet (preCheckWorld cv s) ∨
        (timedWait cv d s).1.data
          = fulfilledConditions s.waitSet (cv.timedWait d (preCheckState cv s).world).2)
    ∧ (¬ preCheckEmpty cv s →
        (wait cv s).1.data = fulfilledConditions s.waitSet (preCheckWorld cv s)
          ∧ (timedWait cv d s).1.data = fulfilledConditions s.waitSet (preCheckWorld cv s))
    ∧ (preCheckEmpty cv s →
        (wait cv s).1.data = fulfilledConditions s.waitSet (cv.wait (preCheckState cv s).world))
    ∧ (∀ w : World,
        (fulfilledConditions s.waitSet w).Nodup
          ∧ List.Sublist (fulfilledConditions s.waitSet w)
              (s.waitSet.m_conditionVector.data.map (fun t => t.m_condition))
          ∧ ∀ c : Nat, c ∈ fulfilledConditions s.waitSet w ↔
              (isConditionAttached s.waitSet c = true ∧ Condition.hasTriggered w c = true)) := by
  have hwf := reachable_wellFormed hs
  have hfound : ¬ preCheckEmpty cv s →
      (wait cv s).1.data = fulfilledConditions s.waitSet (preCheckWorld cv s)
        ∧ (timedWait cv d s).1.data = fulfilledConditions s.waitSet (preCheckWorld cv s) :=
    fun h => ⟨(waitAndReturn_of_found cv (waitFunction cv) s h).1,
      (waitAndReturn_of_found cv (timedWaitFunction cv d) s h).1⟩
  refine ⟨?_, ?_, hfound, fun h => (wait_of_empty cv s h).1, ?_⟩
  · by_cases h : preCheckEmpty cv s
    · exact Or.inr (Or.inr (wait_of_empty cv s h).1)
    · exact Or.inr (Or.inl (hfound h).1)
  · by_cases h : preCheckEmpty cv s
    · have ht := (timedWait_of_empty cv d s h).1
      cases hb : (cv.timedWait d (preCheckState cv s).world).1 with
      | true => rw [hb] at ht; exact Or.inr (Or.inr ht)
      | false => rw [hb] at ht; exact Or.inl ht
    · exact Or.inr (Or.inl (hfound h).2)
  · intro w
    exact ⟨fulfilledConditions_nodup s.waitSet w hwf, (List.filter_sublist _).map _,
      mem_fulfilledConditions_of_wellFormed s.waitSet w hwf⟩

/-- Witness of C2: Conditions 10 and 20 attached, only 10 fulfilled, the handle
notified: wait() returns exactly the sequence holding 10. -/
theorem wait_result_empty_or_scan_witness :
    Reachable (attach (attach (construct 100 200 ⟨fun o _ => o == 10, fun _ => none⟩ : State 2) 10).2 20).2
      ∧ (wait ⟨fun w => (true, w), id, id, fun _ w => (true, w)⟩
          (attach (attach (construct 100 200 ⟨fun o _ => o == 10, fun _ => none⟩ : State 2) 10).2 20).2).1.data = [10] :=
  ⟨Reachable.by_attach 20 (Reachable.by_attach 10 (Reachable.by_construct 100 200 _)),
    ((wait_result_empty_or_scan ⟨fun w => (true, w), id, id, fun _ w => (true, w)⟩ 0
      (attach (attach (construct 100 200 ⟨fun o _ => o == 10, fun _ => none⟩ : State 2) 10).2 20).2
      (Reachable.by_attach 20 (Reachable.by_attach 10 (Reachable.by_construct 100 200 _)))).2.2.1
      (by unfold preCheckEmpty; decide)).1⟩

/-- Counterexample to C3 as stated: Condition 10 is attached but not fulfilled, the
handle was not notified before the call and its wait() returns: the untimed
wait() then returns the empty sequence. -/
theorem wait_may_return_empty :
    (wait ⟨fun w => (false, w), id, id, fun _ w => (false, w)⟩
      (attach (construct 100 200 ⟨fun _ _ => false, fun _ => none⟩ : State 2) 10).2).1.data = [] := by
  rfl

/-- Claim C3 as amended.  The sequence returned by the untimed wait() is non-empty if
and only if the scan that produced it found a fulfilled Trigger: the pre-check
scan (made when wasNotified() is true), or else the single scan made after the
handle's wait() has returned.  There is no loop: when no attached Trigger is
fulfilled at that scan, wait() returns the empty sequence. -/
theorem wait_nonempty_iff (cv : ConditionVariableWaiter) (s : State Capacity) :
    (wait cv s).1.data ≠ [] ↔
      (((cv.wasNotified s.world).1 = true ∧
          ∃ t ∈ s.waitSet.m_conditionVector.data, t.hasTriggered (preCheckWorld cv s) = true)
        ∨ ∃ t ∈ s.waitSet.m_conditionVector.data,
            t.hasTriggered (cv.wait (preCheckState cv s).world) = true) := by
  have hex : ∀ w : World, fulfilledConditions s.waitSet w ≠ [] ↔
      ∃ t ∈ s.waitSet.m_conditionVector.data, t.hasTriggered w = true := by
    intro w
    rw [Ne, fulfilledConditions_eq_nil]
    simp
  by_cases h : preCheckEmpty cv s
  · rw [(wait_of_empty cv s h).1, hex]
    constructor
    · intro h2; exact Or.inr h2
    · rintro (⟨hn, t, ht, htrig⟩ | h2)
      · rcases h with h | h
        · rw [hn] at h; cases h
        · rw [h t ht] at htrig; cases htrig
      · exact h2
  · have hw := (waitAndReturn_of_found cv (waitFunction cv) s h).1
    obtain ⟨hn, hne⟩ := (not_preCheckEmpty_iff cv s).1 h
    have hw2 : (wait cv s).1.data = fulfilledConditions s.waitSet (preCheckWorld cv s) := hw
    rw [hw2]
    constructor
    · intro _; exact Or.inl ⟨hn, (hex _).1 hne⟩
    · intro _; exact hne

/-- Counterexample to C4 as stated: Condition 10 is attached and fulfilled all the
time, wasNotified() is false, and the handle's timedWait returns false:
timedWait(5) returns the empty sequence without scanning, although
hasTriggered() of 10 is true at that point. -/
theorem timedWait_skips_scan :
    (timedWait ⟨fun w => (false, w), id, id, fun _ w => (false, w)⟩ 5
        (attach (construct 100 200 ⟨fun o _ => o == 10, fun _ => none⟩ : State 2) 10).2).1.data = []
      ∧ isConditionAttached
          (attach (construct 100 200 ⟨fun o _ => o == 10, fun _ => none⟩ : State 2) 10).2.waitSet 10 = true
      ∧ Condition.hasTriggered
          (timedWait ⟨fun w => (false, w), id, id, fun _ w => (false, w)⟩ 5
            (attach (construct 100 200 ⟨fun o _ => o == 10, fun _ => none⟩ : State 2) 10).2).2.world 10 = true
      ∧ (timedWait ⟨fun w => (false, w), id, id, fun _ w => (false, w)⟩ 5
          (attach (construct 100 200 ⟨fun o _ => o == 10, fun _ => none⟩ : State 2) 10).2).2.trace
        = [Call.wasNotified, Call.timedWait 5] := by
  refine ⟨rfl, rfl, rfl, rfl⟩

/-- Claim C4 as amended.  In timedWait(d), when the pre-check yields nothing and the
call blocks on the handle: if the handle's timedWait returns true, the result is
the scan of all attached Triggers in the World the handle left, so every attached
Trigger whose hasTriggered() is true at that point has its Condition in the
returned sequence; if the handle's timedWait returns false, the result is the
empty sequence and no Trigger is scanned. -/
theorem timedWait_after_block (cv : ConditionVariableWaiter) (d : Nat) (s : State Capacity)
    (h : preCheckEmpty cv s) :
    ((cv.timedWait d (preCheckState cv s).world).1 = true →
        (timedWait cv d s).1.data
            = fulfilledConditions s.waitSet (cv.timedWait d (preCheckState cv s).world).2
          ∧ (∀ t ∈ s.waitSet.m_conditionVector.data,
              t.hasTriggered (cv.timedWait d (preCheckState cv s).world).2 = true →
                t.m_condition ∈ (timedWait cv d s).1.data)
          ∧ (timedWait cv d s).2.trace
            = (preCheckState cv s).trace ++ [Call.timedWait d] ++ scanCalls s.waitSet)
    ∧ ((cv.timedWait d (preCheckState cv s).world).1 = false →
        (timedWait cv d s).1.data = []
          ∧ (timedWait cv d s).2.trace = (preCheckState cv s).trace ++ [Call.timedWait d])
    ∧ (timedWait cv d s).2.world = (cv.timedWait d (preCheckState cv s).world).2 := by
  obtain ⟨h1, h2⟩ := timedWait_of_empty cv d s h
  refine ⟨?_, ?_, ?_⟩
  · intro hb
    rw [hb] at h1 h2
    simp only [if_true] at h1 h2
    refine ⟨h1, ?_, by rw [h2]⟩
    intro t ht htrig
    rw [h1, mem_fulfilledConditions]
    exact ⟨t, ht, htrig, rfl⟩
  · intro hb
    rw [hb] at h1 h2
    simp only [Bool.false_eq_true, if_false, List.append_nil] at h1 h2
    exact ⟨h1, by rw [h2]⟩
  · rw [h2]

/-- Witness of C4 as amended: Condition 10 attached and fulfilled, not notified, the
handle's timedWait returns true: the result is the scan, the sequence holding 10. -/
theorem timedWait_after_block_witness :
    preCheckEmpty ⟨fun w => (false, w), id, id, fun _ w => (true, w)⟩
        (attach (construct 100 200 ⟨fun o _ => o == 10, fun _ => none⟩ : State 2) 10).2
      ∧ (timedWait ⟨fun w => (false, w), id, id, fun _ w => (true, w)⟩ 5
          (attach (construct 100 200 ⟨fun o _ => o == 10, fun _ => none⟩ : State 2) 10).2).1.data = [10] :=
  ⟨Or.inl rfl,
    ((timedWait_after_block ⟨fun w => (false, w), id, id, fun _ w => (true, w)⟩ 5
      (attach (construct 100 200 ⟨fun o _ => o == 10, fun _ => none⟩ : State 2) 10).2 (Or.inl rfl)).1 rfl).1⟩

/-! ### Access to a Condition after detachCondition and after remove -/

theorem detachCondition_of_not_attached (s : State Capacity) (c : Nat)
    (h : Condition.isConditionVariableAttached s.world c = false) :
    detachCondition s c
      = ⟨s.waitSet, s.world, s.trace ++ [Call.isConditionVariableAttached c]⟩ := by
  simp [detachCondition, h]

theorem detachCondition_of_attached (s : State Capacity) (c : Nat)
    (h : Condition.isConditionVariableAttached s.world c = true) :
    detachCondition s c
      = ⟨s.waitSet, Condition.detachConditionVariable s.world c,
          s.trace ++ [Call.isConditionVariableAttached c, Call.detachConditionVariable c]⟩ := by
  simp [detachCondition, h]

theorem not_attached_after_detach (w : World) (c : Nat) :
    Condition.isConditionVariableAttached (Condition.detachConditionVariable w c) c = false := by
  simp [Condition.isConditionVariableAttached, Condition.detachConditionVariable]

/-- Claim C11.  detachCondition(c): when c.isConditionVariableAttached() is false the
call changes neither the collection nor any Condition and does not invoke
c.detachConditionVariable(); when it is true, c.detachConditionVariable() is
invoked exactly once, which clears the recorded attachment of c and leaves the
records of the other Conditions and the collection alone.  A second
detachCondition(c) right after the first changes nothing any more. -/
theorem detachCondition_effect (s : State Capacity) (c : Nat) :
    (Condition.isConditionVariableAttached s.world c = false →
        (detachCondition s c).waitSet = s.waitSet
          ∧ (detachCondition s c).world = s.world
          ∧ callsMade s (detachCondition s c) = [Call.isConditionVariableAttached c])
    ∧ (Condition.isConditionVariableAttached s.world c = true →
        (detachCondition s c).waitSet = s.waitSet
          ∧ callsMade s (detachCondition s c)
              = [Call.isConditionVariableAttached c, Call.detachConditionVariable c]
          ∧ (detachCondition s c).world.attachment c = none
          ∧ Condition.isConditionVariableAttached (detachCondition s c).world c = false
          ∧ (∀ c2 : Nat, c2 ≠ c →
              (detachCondition s c).world.attachment c2 = s.world.attachment c2)
          ∧ (detachCondition s c).world.memberResult = s.world.memberResult)
    ∧ ((detachCondition (detachCondition s c) c).waitSet = (detachCondition s c).waitSet
        ∧ (detachCondition (detachCondition s c) c).world = (detachCondition s c).world
        ∧ callsMade (detachCondition s c) (detachCondition (detachCondition s c) c)
            = [Call.isConditionVariableAttached c]) := by
  have hsecond : Condition.isConditionVariableAttached (detachCondition s c).world c = false := by
    by_cases h : Condition.isConditionVariableAttached s.world c = true
    · rw [detachCondition_of_attached s c h]
      exact not_attached_after_detach s.world c
    · have h2 : Condition.isConditionVariableAttached s.world c = false := by
        cases hb : Condition.isConditionVariableAttached s.world c with
        | false => rfl
        | true => exact absurd hb h
      rw [detachCondition_of_not_attached s c h2]
      exact h2
  refine ⟨?_, ?_, ?_⟩
  · intro h
    rw [detachCondition_of_not_attached s c h]
    exact ⟨rfl, rfl, by simp [callsMade]⟩
  · intro h
    rw [detachCondition_of_attached s c h]
    refine ⟨rfl, by simp [callsMade], ?_, not_attached_after_detach s.world c, ?_, rfl⟩
    · simp [Condition.detachConditionVariable]
    · intro c2 hne
      simp [Condition.detachConditionVariable, Function.update_noteq hne]
  · rw [detachCondition_of_not_attached (detachCondition s c) c hsecond]
    exact ⟨rfl, rfl, by simp [callsMade]⟩

/-- Witness of C11: Condition 10 attached by attachCondition(10), then detached. -/
theorem detachCondition_effect_witness :
    Condition.isConditionVariableAttached
        (attachCondition (construct 100 200 ⟨fun o _ => o == 10, fun _ => none⟩ : State 2) 10).2.world 10 = true
      ∧ callsMade (attachCondition (construct 100 200 ⟨fun o _ => o == 10, fun _ => none⟩ : State 2) 10).2
          (detachCondition (attachCondition (construct 100 200 ⟨fun o _ => o == 10, fun _ => none⟩ : State 2) 10).2 10)
        = [Call.isConditionVariableAttached 10, Call.detachConditionVariable 10] :=
  ⟨by simp [attachCondition, construct, isConditionAttached, vector.nil, vector.push_back,
      Condition.attachConditionVariable, Condition.isConditionVariableAttached],
    ((detachCondition_effect (attachCondition (construct 100 200 ⟨fun o _ => o == 10, fun _ => none⟩ : State 2) 10).2 10).2.1
      (by simp [attachCondition, construct, isConditionAttached, vector.nil, vector.push_back,
        Condition.attachConditionVariable, Condition.isConditionVariableAttached])).2.1⟩

/-! ### remove -/

theorem remove_fields (s : State Capacity) (entry : Nat) :
    (remove s entry).world = s.world ∧ (remove s entry).trace = s.trace
      ∧ (remove s entry).waitSet.self = s.waitSet.self
      ∧ (remove s entry).waitSet.m_conditionVariableDataPtr
          = s.waitSet.m_conditionVariableDataPtr := by
  unfold remove
  split <;> exact ⟨rfl, rfl, rfl, rfl⟩

theorem state_eq_of_fields (s s2 : State Capacity)
    (hd : s2.waitSet.m_conditionVector.data = s.waitSet.m_conditionVector.data)
    (hself : s2.waitSet.self = s.waitSet.self)
    (hh : s2.waitSet.m_conditionVariableDataPtr = s.waitSet.m_conditionVariableDataPtr)
    (hw : s2.world = s.world) (ht : s2.trace = s.trace) : s2 = s := by
  obtain ⟨⟨self, handle, v⟩, w, t⟩ := s
  obtain ⟨⟨self2, handle2, v2⟩, w2, t2⟩ := s2
  simp only at hd hself hh hw ht
  have hv : v2 = v := vector.ext_data hd
  subst hv hself hh hw ht
  rfl

theorem remove_of_no_match (s : State Capacity) (entry : Nat)
    (h : ∀ t ∈ s.waitSet.m_conditionVector.data, t.m_condition ≠ entry) :
    remove s entry = s := by
  obtain ⟨hw, ht, hself, hh⟩ := remove_fields s entry
  refine state_eq_of_fields s (remove s entry) ?_ hself hh hw ht
  rw [remove_data]
  apply List.eraseP_of_forall_not
  intro t ht hp
  exact h t ht (by simpa [Trigger.eqAddr] using hp)

/-- Claim C12.  remove(a): if some Trigger's condition address equals a, the collection
afterwards is the previous collection with the first such Trigger erased, the
other Triggers kept in their order, and the size is one less; if no Trigger
matches, the state is unchanged.  remove changes nothing else.  On every WaitSet
reachable through the public operations no Trigger references a afterwards, so
that a second remove(a) changes nothing. -/
theorem remove_erases_trigger (s : State Capacity) (a : Nat) :
    ((∃ t ∈ s.waitSet.m_conditionVector.data, t.m_condition = a) →
        ∃ (l1 : List Trigger) (t : Trigger) (l2 : List Trigger),
          s.waitSet.m_conditionVector.data = l1 ++ t :: l2
            ∧ (∀ u ∈ l1, u.m_condition ≠ a)
            ∧ t.m_condition = a
            ∧ (remove s a).waitSet.m_conditionVector.data = l1 ++ l2
            ∧ (remove s a).waitSet.m_conditionVector.data.length + 1
                = s.waitSet.m_conditionVector.data.length)
    ∧ ((∀ t ∈ s.waitSet.m_conditionVector.data, t.m_condition ≠ a) → remove s a = s)
    ∧ ((remove s a).world = s.world ∧ (remove s a).trace = s.trace
        ∧ (remove s a).waitSet.self = s.waitSet.self
        ∧ (remove s a).waitSet.m_conditionVariableDataPtr
            = s.waitSet.m_conditionVariableDataPtr)
    ∧ (Reachable s →
        (∀ t ∈ (remove s a).waitSet.m_conditionVector.data, t.m_condition ≠ a)
          ∧ isConditionAttached (remove s a).waitSet a = false
          ∧ remove (remove s a) a = remove s a) := by
  refine ⟨?_, remove_of_no_match s a, remove_fields s a, ?_⟩
  · rintro ⟨t, ht, hta⟩
    have hp : (fun u : Trigger => u.eqAddr a) t = true := by
      simp [Trigger.eqAddr, hta]
    obtain ⟨t0, l1, l2, hl1, hpt, hsplit, herase⟩ :=
      @List.exists_of_eraseP _ (fun u : Trigger => u.eqAddr a) _ _ ht hp
    refine ⟨l1, t0, l2, hsplit, ?_, by simpa [Trigger.eqAddr] using hpt, ?_, ?_⟩
    · intro u hu heq
      exact hl1 u hu (by simp [Trigger.eqAddr, heq])
    · rw [remove_data, herase]
    · rw [remove_data, herase, hsplit]
      simp only [List.length_append, List.length_cons]
      omega
  · intro hs
    have hwf := reachable_wellFormed hs
    have hrem : ∀ t ∈ (remove s a).waitSet.m_conditionVector.data, t.m_condition ≠ a := by
      rw [remove_data]
      exact eraseP_no_match _ a hwf.1
    exact ⟨hrem, (isConditionAttached_eq_false_iff _ _).2 hrem, remove_of_no_match _ a hrem⟩

/-- Witness of C12: Conditions 10 and 20 attached, remove(10) leaves the Trigger of 20. -/
theorem remove_erases_trigger_witness :
    Reachable (attach (attach (construct 100 200 ⟨fun o _ => o == 10, fun _ => none⟩ : State 2) 10).2 20).2
      ∧ isConditionAttached (remove (attach (attach (construct 100 200 ⟨fun o _ => o == 10, fun _ => none⟩ : State 2) 10).2 20).2 10).waitSet 10 = false :=
  ⟨(Reachable.by_attach 20 (Reachable.by_attach 10 (Reachable.by_construct 100 200 _))),
    ((remove_erases_trigger (attach (attach (construct 100 200 ⟨fun o _ => o == 10, fun _ => none⟩ : State 2) 10).2 20).2 10).2.2.2
      (Reachable.by_attach 20 (Reachable.by_attach 10 (Reachable.by_construct 100 200 _)))).2.1⟩

/-! ### detachAllConditions and the destructor -/

theorem detach_foldl_memberResult (l : List Trigger) :
    ∀ w : World,
      (l.foldl (fun w t => Condition.detachConditionVariable w t.m_condition) w).memberResult
        = w.memberResult := by
  induction l with
  | nil => intro w; rfl
  | cons t ts ih => intro w; simp only [List.foldl_cons]; rw [ih]; rfl

theorem detach_foldl_attachment (l : List Trigger) :
    ∀ (w : World) (c : Nat),
      (l.foldl (fun w t => Condition.detachConditionVariable w t.m_condition) w).attachment c
        = if c ∈ l.map (fun t => t.m_condition) then none else w.attachment c := by
  induction l with
  | nil => intro w c; simp
  | cons t ts ih =>
    intro w c
    simp only [List.foldl_cons, List.map_cons, List.mem_cons]
    rw [ih]
    by_cases h1 : c ∈ ts.map (fun t => t.m_condition)
    · simp [h1]
    · by_cases h2 : c = t.m_condition
      · simp [h2, Condition.detachConditionVariable]
      · simp [h1, h2, Condition.detachConditionVariable, Function.update_noteq h2]

/-- Claim C13.  detachAllConditions() invokes detachConditionVariable() once for every
Trigger held at the time of the call, in collection order and skipping none, and
makes no other call; afterwards the collection is empty, the attachment record of
every Condition that had a Trigger is cleared and the other records are as
before.  On an empty WaitSet it changes nothing.  The destructor does exactly
the same.  On a reachable WaitSet every attached Condition gets exactly one
call. -/
theorem detachAllConditions_effect (s : State Capacity) :
    callsMade s (detachAllConditions s)
        = s.waitSet.m_conditionVector.data.map (fun t => Call.detachConditionVariable t.m_condition)
    ∧ (detachAllConditions s).waitSet.m_conditionVector.data = []
    ∧ (detachAllConditions s).waitSet.self = s.waitSet.self
    ∧ (detachAllConditions s).waitSet.m_conditionVariableDataPtr
        = s.waitSet.m_conditionVariableDataPtr
    ∧ (∀ c : Nat, (detachAllConditions s).world.attachment c
        = if isConditionAttached s.waitSet c = true then none else s.world.attachment c)
    ∧ (detachAllConditions s).world.memberResult = s.world.memberResult
    ∧ (s.waitSet.m_conditionVector.data = [] → detachAllConditions s = s)
    ∧ destruct s = detachAllConditions s
    ∧ (Reachable s → ∀ c : Nat, isConditionAttached s.waitSet c = true →
        (callsMade s (detachAllConditions s)).count (Call.detachConditionVariable c) = 1) := by
  have hcalls : callsMade s (detachAllConditions s)
      = s.waitSet.m_conditionVector.data.map
          (fun t => Call.detachConditionVariable t.m_condition) :=
    callsMade_append s (detachAllConditions s) _ (by rw [detachAllConditions_eq])
  refine ⟨hcalls, ?_, ?_, ?_, ?_, ?_, ?_, rfl, ?_⟩
  · rw [detachAllConditions_eq]; rfl
  · rw [detachAllConditions_eq]
  · rw [detachAllConditions_eq]
  · intro c
    rw [detachAllConditions_eq]
    simp only []
    rw [detach_foldl_attachment]
    by_cases h : isConditionAttached s.waitSet c = true
    · have hmem : c ∈ s.waitSet.m_conditionVector.data.map (fun t => t.m_condition) := by
        obtain ⟨t, ht, rfl⟩ := (isConditionAttached_iff _ _).1 h
        exact List.mem_map.2 ⟨t, ht, rfl⟩
      simp [h, hmem]
    · have hmem : c ∉ s.waitSet.m_conditionVector.data.map (fun t => t.m_condition) := by
        intro hm
        obtain ⟨t, ht, rfl⟩ := List.mem_map.1 hm
        exact h ((isConditionAttached_iff _ _).2 ⟨t, ht, rfl⟩)
      simp [h, hmem]
  · rw [detachAllConditions_eq]
    exact detach_foldl_memberResult _ _
  · intro hnil
    refine state_eq_of_fields s (detachAllConditions s) ?_ ?_ ?_ ?_ ?_
    · rw [detachAllConditions_eq, hnil]; rfl
    · rw [detachAllConditions_eq]
    · rw [detachAllConditions_eq]
    · rw [detachAllConditions_eq, hnil]; rfl
    · rw [detachAllConditions_eq, hnil]; simp
  · intro hs c hc
    have hwf := reachable_wellFormed hs
    rw [hcalls]
    apply List.count_eq_one_of_mem
    · have hmap : s.waitSet.m_conditionVector.data.map
            (fun t => Call.detachConditionVariable t.m_condition)
          = (s.waitSet.m_conditionVector.data.map (fun t => t.m_condition)).map
              Call.detachConditionVariable := by
        rw [List.map_map]; rfl
      rw [hmap]
      exact List.Nodup.map (fun x y hxy => by cases hxy; rfl) hwf.1
    · obtain ⟨t, ht, rfl⟩ := (isConditionAttached_iff _ _).1 hc
      exact List.mem_map.2 ⟨t, ht, rfl⟩

/-- Witness of C13: Conditions 10 and 20 attached; detachAllConditions() calls
detachConditionVariable() of 10 exactly once. -/
theorem detachAllConditions_effect_witness :
    Reachable (attach (attach (construct 100 200 ⟨fun o _ => o == 10, fun _ => none⟩ : State 2) 10).2 20).2
      ∧ isConditionAttached (attach (attach (construct 100 200 ⟨fun o _ => o == 10, fun _ => none⟩ : State 2) 10).2 20).2.waitSet 10 = true
      ∧ (callsMade (attach (attach (construct 100 200 ⟨fun o _ => o == 10, fun _ => none⟩ : State 2) 10).2 20).2
          (detachAllConditions (attach (attach (construct 100 200 ⟨fun o _ => o == 10, fun _ => none⟩ : State 2) 10).2 20).2)).count
            (Call.detachConditionVariable 10) = 1 :=
  ⟨(Reachable.by_attach 20 (Reachable.by_attach 10 (Reachable.by_construct 100 200 _))), rfl,
    (detachAllConditions_effect (attach (attach (construct 100 200 ⟨fun o _ => o == 10, fun _ => none⟩ : State 2) 10).2 20).2).2.2.2.2.2.2.2.2
      (Reachable.by_attach 20 (Reachable.by_attach 10 (Reachable.by_construct 100 200 _))) 10 rfl⟩

/-! ### The representation invariant along every sequence of operations -/

theorem attach_handle (s : State Capacity) (c : Nat) :
    (attach s c).2.waitSet.m_conditionVariableDataPtr = s.waitSet.m_conditionVariableDataPtr := by
  by_cases ha : isConditionAttached s.waitSet c = true
  · rw [attach_of_attached s c ha]
  · have ha2 := isConditionAttached_false_of_not s c ha
    by_cases hroom : s.waitSet.m_conditionVector.data.length < Capacity
    · exact (attach_of_room s c ha2 hroom).2.2.2.1
    · rw [attach_of_full s c ha2 hroom]

theorem attachCondition_handle (s : State Capacity) (c : Nat) :
    (attachCondition s c).2.waitSet.m_conditionVariableDataPtr
      = s.waitSet.m_conditionVariableDataPtr := by
  by_cases ha : isConditionAttached s.waitSet c = true
  · rw [attachCondition_of_attached s c ha]
  · have ha2 := isConditionAttached_false_of_not s c ha
    by_cases hroom : s.waitSet.m_conditionVector.data.length < Capacity
    · exact (attachCondition_of_room s c ha2 hroom).2.2.2.1
    · rw [attachCondition_of_full s c ha2 hroom]

theorem apply_handle (s : State Capacity) (op : Operation) :
    (Operation.apply s op).waitSet.m_conditionVariableDataPtr
      = s.waitSet.m_conditionVariableDataPtr := by
  cases op with
  | attach c => exact attach_handle s c
  | attachCondition c => exact attachCondition_handle s c
  | detachCondition c => simp only [Operation.apply]; rw [detachCondition_waitSet]
  | remove entry => exact (remove_fields s entry).2.2.2
  | detachAllConditions => simp only [Operation.apply]; rw [detachAllConditions_eq]
  | wait cv => simp only [Operation.apply]; rw [wait_waitSet]
  | timedWait cv d => simp only [Operation.apply]; rw [timedWait_waitSet]

theorem apply_reachable (s : State Capacity) (op : Operation) (h : Reachable s) :
    Reachable (Operation.apply s op) := by
  cases op with
  | attach c => exact Reachable.by_attach c h
  | attachCondition c => exact Reachable.by_attachCondition c h
  | detachCondition c => exact Reachable.by_detachCondition c h
  | remove entry => exact Reachable.by_remove entry h
  | detachAllConditions => exact Reachable.by_detachAllConditions h
  | wait cv => exact Reachable.by_wait cv h
  | timedWait cv d => exact Reachable.by_timedWait cv d h

theorem runOperations_reachable (ops : List Operation) :
    ∀ s : State Capacity, Reachable s →
      Reachable (runOperations s ops)
        ∧ (runOperations s ops).waitSet.m_conditionVariableDataPtr
            = s.waitSet.m_conditionVariableDataPtr := by
  induction ops with
  | nil => intro s h; exact ⟨h, rfl⟩
  | cons op ops ih =>
    intro s h
    obtain ⟨h1, h2⟩ := ih (Operation.apply s op) (apply_reachable s op h)
    exact ⟨h1, by rw [← apply_handle s op]; exact h2⟩

/-- Claim C14.  Representation invariant of the WaitSet: in the state reached from
construction with the handle `handle` by any sequence of attach,
attachCondition, detachCondition, remove, detachAllConditions, wait and
timedWait, no two Triggers of the collection reference the same Condition, every
Trigger's owning handle is `handle`, and the WaitSet still holds `handle`. -/
theorem representation_invariant (ops : List Operation) (self handle : Nat) (w : World) :
    ((runOperations (construct self handle w : State Capacity) ops).waitSet.m_conditionVector.data.map
        (fun t => t.m_condition)).Nodup
    ∧ (∀ t ∈ (runOperations (construct self handle w : State Capacity)
          ops).waitSet.m_conditionVector.data,
        ∀ u ∈ (runOperations (construct self handle w : State Capacity)
            ops).waitSet.m_conditionVector.data,
          t.m_condition = u.m_condition → t = u)
    ∧ (∀ t ∈ (runOperations (construct self handle w : State Capacity)
          ops).waitSet.m_conditionVector.data,
        t.m_conditionVariableDataPtr = handle)
    ∧ (runOperations (construct self handle w : State Capacity)
        ops).waitSet.m_conditionVariableDataPtr = handle := by
  obtain ⟨hr, hh⟩ := runOperations_reachable ops (construct self handle w : State Capacity)
    (Reachable.by_construct self handle w)
  have hh2 : (runOperations (construct self handle w : State Capacity)
      ops).waitSet.m_conditionVariableDataPtr = handle := hh
  obtain ⟨hnd, hall⟩ := reachable_wellFormed hr
  refine ⟨hnd, ?_, ?_, hh2⟩
  · intro t ht u hu heq
    rw [hall t ht, hall u hu, heq]
  · intro t ht
    rw [hall t ht, hh2]
    rfl

/-! ### The method callbacks -/

/-- Claim C15.  For every bound object o, member function m and arguments args,
invoking MethodCallback(o, m)(args) is calling m on o with args: it returns the
value m returns on the state of o, leaves o in the state m leaves it in, and
makes exactly that one call; likewise ConstMethodCallback(o, m)(args) for a const
member function, which leaves every object as it was.  Consequently the
hasTriggered() of the Trigger that attach builds for a Condition c returns
c.hasTriggered(), and so does every Trigger of a WaitSet reached by the public
operations for its own Condition. -/
theorem callback_invokes_bound_member {σ Args R : Type} (h : Heap σ Args R) (o m : Nat)
    (args : Args) :
    (MethodCallback.make o m).call h args = h.callMember o m args
    ∧ ((MethodCallback.make o m).call h args).1 = (h.method m (h.object o) args).1
    ∧ ((MethodCallback.make o m).call h args).2.object o = (h.method m (h.object o) args).2
    ∧ (∀ o2 : Nat, o2 ≠ o → ((MethodCallback.make o m).call h args).2.object o2 = h.object o2)
    ∧ ((MethodCallback.make o m).call h args).2.calls = h.calls ++ [(o, m, args)]
    ∧ (ConstMethodCallback.make o m).callOn h args = h.callConstMember o m args
    ∧ ((ConstMethodCallback.make o m).callOn h args).1 = h.constMethod m (h.object o) args
    ∧ ((ConstMethodCallback.make o m).callOn h args).2.object = h.object
    ∧ ((ConstMethodCallback.make o m).callOn h args).2.calls = h.calls ++ [(o, m, args)]
    ∧ (∀ w : World,
        (ConstMethodCallback.make o m).call w
          = ((ConstMethodCallback.make o m).callOn w.toHeap ()).1)
    ∧ (∀ (w : World) (handle : Nat),
        (Trigger.make o Condition.hasTriggeredMethod handle).hasTriggered w
          = Condition.hasTriggered w o)
    ∧ (∀ (ops : List Operation) (self handle : Nat) (w0 : World),
        ∀ t ∈ (runOperations (construct self handle w0 : State Capacity)
            ops).waitSet.m_conditionVector.data,
          ∀ w : World, t.hasTriggered w = Condition.hasTriggered w t.m_condition) := by
  refine ⟨rfl, rfl, ?_, ?_, rfl, rfl, rfl, rfl, rfl, fun _ => rfl, fun _ _ => rfl, ?_⟩
  · simp [MethodCallback.call, MethodCallback.make, Heap.methodCallbackCaller, Heap.callMember]
  · intro o2 hne
    simp [MethodCallback.call, MethodCallback.make, Heap.methodCallbackCaller, Heap.callMember,
      Function.update_noteq hne]
  · intro ops self handle w0 t ht w
    obtain ⟨hr, _⟩ := runOperations_reachable ops (construct self handle w0 : State Capacity)
      (Reachable.by_construct self handle w0)
    have h2 := (reachable_wellFormed hr).2 t ht
    rw [h2]
    rfl

/-- Claim C16.  Equality is identity of the bound parts: two MethodCallbacks, and two
ConstMethodCallbacks, compare equal iff their bound object addresses are equal
and their bound member-function addresses are equal; two Triggers compare equal
iff their condition addresses are equal and their hasTriggered callbacks compare
equal; a Trigger compares equal to a raw address iff its condition address is
that address.  The three comparisons of like values are reflexive and symmetric,
and a Trigger compares equal to its own condition address. -/
theorem equality_is_identity_of_bound_parts :
    (∀ a b : MethodCallback,
        a.eq b = true ↔ (a.m_classPtr = b.m_classPtr ∧ a.m_methodPtr = b.m_methodPtr))
    ∧ (∀ a b : ConstMethodCallback,
        a.eq b = true ↔ (a.m_classPtr = b.m_classPtr ∧ a.m_methodPtr = b.m_methodPtr))
    ∧ (∀ t u : Trigger,
        t.eq u = true ↔
          (t.m_condition = u.m_condition ∧ t.m_hasTriggeredCall.eq u.m_hasTriggeredCall = true))
    ∧ (∀ (t : Trigger) (a : Nat), t.eqAddr a = true ↔ t.m_condition = a)
    ∧ (∀ a : MethodCallback, a.eq a = true)
    ∧ (∀ a b : MethodCallback, a.eq b = b.eq a)
    ∧ (∀ a : ConstMethodCallback, a.eq a = true)
    ∧ (∀ a b : ConstMethodCallback, a.eq b = b.eq a)
    ∧ (∀ t : Trigger, t.eq t = true)
    ∧ (∀ t u : Trigger, t.eq u = u.eq t)
    ∧ (∀ t : Trigger, t.eqAddr t.m_condition = true)
    ∧ (∀ a b : MethodCallback, a.eq b = true ↔ a = b)
    ∧ (∀ a b : ConstMethodCallback, a.eq b = true ↔ a = b) := by
  have hsymm : ∀ x y : Nat, (x == y) = (y == x) := by
    intro x y
    by_cases h : x = y
    · subst h; rfl
    · have h2 : ¬ y = x := fun e => h e.symm
      simp [h, h2]
  refine ⟨?_, ?_, ?_, ?_, ?_, ?_, ?_, ?_, ?_, ?_, ?_, ?_, ?_⟩
  · intro a b; simp [MethodCallback.eq]
  · intro a b; simp [ConstMethodCallback.eq]
  · intro t u; simp [Trigger.eq]
  · intro t a; simp [Trigger.eqAddr]
  · intro a; simp [MethodCallback.eq]
  · intro a b
    simp only [MethodCallback.eq]
    rw [hsymm a.m_classPtr, hsymm a.m_methodPtr]
  · intro a; simp [ConstMethodCallback.eq]
  · intro a b
    simp only [ConstMethodCallback.eq]
    rw [hsymm a.m_classPtr, hsymm a.m_methodPtr]
  · intro t; simp [Trigger.eq, ConstMethodCallback.eq]
  · intro t u
    simp only [Trigger.eq, ConstMethodCallback.eq]
    rw [hsymm t.m_condition, hsymm t.m_hasTriggeredCall.m_classPtr,
      hsymm t.m_hasTriggeredCall.m_methodPtr]
  · intro t; simp [Trigger.eqAddr]
  · intro a b
    cases a; cases b
    simp [MethodCallback.eq]
  · intro a b
    cases a; cases b
    simp [ConstMethodCallback.eq]

end WaitSet

end popo

end iox

/-! ## The bump allocator -/

namespace iox

namespace BumpAllocator

/-! ### Alignment -/

theorem alignUp_eq (v al : Nat) (hal : 0 < al) :
    alignUp v al = v + (if v % al = 0 then 0 else al - v % al) := by
  have hv := Nat.div_add_mod v al
  have hr := Nat.mod_lt v hal
  unfold alignUp
  by_cases h0 : v % al = 0
  · have hq : (v + al - 1) / al = v / al := by
      apply Nat.div_eq_of_lt_le
      · rw [Nat.mul_comm]; omega
      · rw [Nat.add_mul, Nat.one_mul, Nat.mul_comm]; omega
    rw [hq, if_pos h0]
    omega
  · have hq : (v + al - 1) / al = v / al + 1 := by
      apply Nat.div_eq_of_lt_le
      · rw [Nat.add_mul, Nat.one_mul, Nat.mul_comm]; omega
      · rw [Nat.add_mul, Nat.add_mul, Nat.one_mul, Nat.mul_comm]; omega
    rw [hq, if_neg h0, Nat.mul_add, Nat.mul_one]
    omega

/-- The closed form `alignUp` is the smallest multiple of the alignment at or after
the value. -/
theorem alignUp_spec (v al : Nat) (hal : 0 < al) :
    al ∣ alignUp v al ∧ v ≤ alignUp v al ∧ alignUp v al < v + al
      ∧ ∀ b : Nat, v ≤ b → al ∣ b → alignUp v al ≤ b := by
  have heq := alignUp_eq v al hal
  have hr := Nat.mod_lt v hal
  have hlt : alignUp v al < v + al := by
    rw [heq]; split <;> omega
  refine ⟨⟨_, rfl⟩, by rw [heq]; omega, hlt, ?_⟩
  intro b hb hdvd
  obtain ⟨k, rfl⟩ := hdvd
  by_contra hcon
  have hkj : al * k < al * ((v + al - 1) / al) := by
    unfold alignUp at hcon; omega
  have hk : k < (v + al - 1) / al := Nat.lt_of_mul_lt_mul_left hkj
  have hstep : al * (k + 1) ≤ al * ((v + al - 1) / al) := Nat.mul_le_mul_left al hk
  rw [Nat.mul_add, Nat.mul_one] at hstep
  unfold alignUp at hlt
  omega

theorem align_eq_alignUp (v al : Nat) (hal : 0 < al) :
    cxx.align v al = alignUp v al % 2 ^ 64 := by
  rw [alignUp_eq v al hal]
  rfl

/-! ### allocate -/

theorem allocate_zero (a : BumpAllocator) (alignment : Nat) :
    allocate a 0 alignment = (.error .REQUESTED_ZERO_SIZED_MEMORY, a) := by
  simp [allocate]

/-- What allocate computes when none of its 64-bit operations wraps: the next aligned
address and the aligned position plus size are below 2^64. -/
theorem allocate_of_no_wrap (a : BumpAllocator) (size alignment : Nat)
    (hal : 0 < alignment) (hsize : 0 < size)
    (hA : alignUp (a.m_startAddress + a.m_currentPosition) alignment < 2 ^ 64)
    (hsum : exactAlignedPosition a alignment + size < 2 ^ 64) :
    allocate a size alignment
      = if a.m_length ≥ exactAlignedPosition a alignment + size then
          (.ok (alignUp (a.m_startAddress + a.m_currentPosition) alignment),
            ⟨a.m_startAddress, a.m_length, exactAlignedPosition a alignment + size⟩)
        else (.error .OUT_OF_MEMORY, a) := by
  obtain ⟨_, hge, _, _⟩ := alignUp_spec (a.m_startAddress + a.m_currentPosition) alignment hal
  have hcur : (a.m_startAddress + a.m_currentPosition) % 2 ^ 64
      = a.m_startAddress + a.m_currentPosition := Nat.mod_eq_of_lt (by omega)
  have halign : cxx.align (a.m_startAddress + a.m_currentPosition) alignment
      = alignUp (a.m_startAddress + a.m_currentPosition) alignment := by
    rw [align_eq_alignUp _ _ hal, Nat.mod_eq_of_lt hA]
  have hpos : (alignUp (a.m_startAddress + a.m_currentPosition) alignment + 2 ^ 64
      - a.m_startAddress) % 2 ^ 64 = exactAlignedPosition a alignment := by
    have h1 : alignUp (a.m_startAddress + a.m_currentPosition) alignment + 2 ^ 64
        - a.m_startAddress = exactAlignedPosition a alignment + 2 ^ 64 := by
      unfold exactAlignedPosition; omega
    rw [h1, Nat.add_mod_right]
    exact Nat.mod_eq_of_lt (by omega)
  have hsum2 : (exactAlignedPosition a alignment + size) % 2 ^ 64
      = exactAlignedPosition a alignment + size := Nat.mod_eq_of_lt hsum
  have haddr : (a.m_startAddress + exactAlignedPosition a alignment) % 2 ^ 64
      = alignUp (a.m_startAddress + a.m_currentPosition) alignment := by
    have h1 : a.m_startAddress + exactAlignedPosition a alignment
        = alignUp (a.m_startAddress + a.m_currentPosition) alignment := by
      unfold exactAlignedPosition; omega
    rw [h1]
    exact Nat.mod_eq_of_lt hA
  have hs0 : ¬ size = 0 := by omega
  simp only [allocate, hs0, if_false, hcur, halign, hpos, hsum2, haddr]

/-- Claim C17, the code at the failing input: on the allocator of a 100-byte region at
address 4096, allocate(8, 8) succeeds and leaves the bump position at 8; then
allocate(2^64 - 8, 8) has aligned position 8, and 8 plus the size is 2^64 as an
exact integer, far more than the length 100, yet the call succeeds: the 64-bit
sum wraps to 0, the address 4104 is returned and the bump position becomes 0. -/
theorem allocate_wraps_past_length :
    allocate (construct 4096 100) 8 8 = (.ok 4096, ⟨4096, 100, 8⟩)
      ∧ exactAlignedPosition ⟨4096, 100, 8⟩ 8 = 8
      ∧ IsUInt64 (2 ^ 64 - 8)
      ∧ exactAlignedPosition ⟨4096, 100, 8⟩ 8 + (2 ^ 64 - 8) > 100
      ∧ allocate ⟨4096, 100, 8⟩ (2 ^ 64 - 8) 8 = (.ok 4104, ⟨4096, 100, 0⟩) := by
  refine ⟨rfl, rfl, ?_, ?_, rfl⟩
  · unfold IsUInt64; norm_num
  · norm_num [exactAlignedPosition, alignUp]

/-- Claim C18.  For every size > 0 and every alignment > 0 (so every power of two), on
an allocator whose region does not wrap the 64-bit address space and with aligned
position + size <= length: allocate succeeds and returns the smallest address
that is at least start + bump position and a multiple of the alignment; the block
[address, address + size) lies inside [start, start + length); the new bump
position is (address - start) + size; start address and length stay. -/
theorem allocate_succeeds_when_fits (a : BumpAllocator) (size alignment : Nat)
    (hal : 0 < alignment) (hsize : 0 < size)
    (hlen : IsUInt64 a.m_length)
    (hwrap : a.m_startAddress + a.m_length ≤ 2 ^ 64)
    (hfit : exactAlignedPosition a alignment + size ≤ a.m_length) :
    ∃ address : Nat,
      (allocate a size alignment).1 = .ok address
        ∧ alignment ∣ address
        ∧ a.m_startAddress + a.m_currentPosition ≤ address
        ∧ (∀ b : Nat, a.m_startAddress + a.m_currentPosition ≤ b → alignment ∣ b → address ≤ b)
        ∧ a.m_startAddress ≤ address
        ∧ address + size ≤ a.m_startAddress + a.m_length
        ∧ (allocate a size alignment).2.m_currentPosition = (address - a.m_startAddress) + size
        ∧ (allocate a size alignment).2.m_startAddress = a.m_startAddress
        ∧ (allocate a size alignment).2.m_length = a.m_length := by
  obtain ⟨hdvd, hge, _, hleast⟩ :=
    alignUp_spec (a.m_startAddress + a.m_currentPosition) alignment hal
  unfold IsUInt64 at hlen
  have hpos : exactAlignedPosition a alignment
      = alignUp (a.m_startAddress + a.m_currentPosition) alignment - a.m_startAddress := rfl
  have hA : alignUp (a.m_startAddress + a.m_currentPosition) alignment < 2 ^ 64 := by omega
  have hsum : exactAlignedPosition a alignment + size < 2 ^ 64 := by omega
  have hrun := allocate_of_no_wrap a size alignment hal hsize hA hsum
  rw [if_pos hfit] at hrun
  refine ⟨alignUp (a.m_startAddress + a.m_currentPosition) alignment, ?_, hdvd, hge, hleast,
    by omega, by omega, ?_, ?_, ?_⟩
  · rw [hrun]
  · rw [hrun]
    simp only [hpos]
  · rw [hrun]
  · rw [hrun]

/-- Witness of C18: BumpAllocator(4099, 100).allocate(40, 8) returns 4104. -/
theorem allocate_succeeds_when_fits_witness :
    (0 < 8 ∧ 0 < 40 ∧ IsUInt64 (construct 4099 100).m_length
        ∧ (construct 4099 100).m_startAddress + (construct 4099 100).m_length ≤ 2 ^ 64
        ∧ exactAlignedPosition (construct 4099 100) 8 + 40 ≤ (construct 4099 100).m_length)
      ∧ ∃ address : Nat, (allocate (construct 4099 100) 40 8).1 = .ok address
          ∧ 8 ∣ address ∧ 4099 ≤ address ∧ address + 40 ≤ 4099 + 100 :=
  ⟨⟨by norm_num, by norm_num, by unfold IsUInt64; norm_num [construct],
      by norm_num [construct], by norm_num [construct, exactAlignedPosition, alignUp]⟩,
    (allocate_succeeds_when_fits (construct 4099 100) 40 8 (by norm_num) (by norm_num)
      (by unfold IsUInt64; norm_num [construct]) (by norm_num [construct])
      (by norm_num [construct, exactAlignedPosition, alignUp])).imp
      (fun _ h => ⟨h.1, h.2.1, h.2.2.2.2.1, h.2.2.2.2.2.1⟩)⟩

/-- Claim C19.  allocate(0, alignment) fails with REQUESTED_ZERO_SIZED_MEMORY for every
allocator state and every alignment, and allocate returns
REQUESTED_ZERO_SIZED_MEMORY only when size == 0. -/
theorem zero_size_is_rejected (a : BumpAllocator) (size alignment : Nat) :
    (allocate a 0 alignment).1 = .error .REQUESTED_ZERO_SIZED_MEMORY
      ∧ (allocate a 0 alignment).2 = a
      ∧ ((allocate a size alignment).1 = .error .REQUESTED_ZERO_SIZED_MEMORY ↔ size = 0) := by
  refine ⟨by rw [allocate_zero], by rw [allocate_zero], ?_⟩
  constructor
  · intro h
    by_contra hs
    unfold allocate at h
    simp only [hs, if_false] at h
    split at h <;> cases h
  · intro hs
    rw [hs, allocate_zero]

/-- Claim C20.  Failure is atomic: whenever allocate(size, alignment) returns an error,
the bump position, the start address and the length are unchanged, so that any
following allocate returns what it would have returned without the failed call. -/
theorem allocate_failure_is_atomic (a : BumpAllocator) (size alignment : Nat)
    (e : BumpAllocatorError) (h : (allocate a size alignment).1 = .error e) :
    (allocate a size alignment).2 = a
      ∧ (allocate a size alignment).2.m_currentPosition = a.m_currentPosition
      ∧ (allocate a size alignment).2.m_startAddress = a.m_startAddress
      ∧ (allocate a size alignment).2.m_length = a.m_length
      ∧ ∀ size2 alignment2 : Nat,
          allocate (allocate a size alignment).2 size2 alignment2 = allocate a size2 alignment2 := by
  have hst : (allocate a size alignment).2 = a := by
    unfold allocate at h ⊢
    by_cases hs : size = 0
    · simp [hs]
    · simp only [hs, if_false] at h ⊢
      split
      · rename_i hfit
        rw [if_pos hfit] at h
        cases h
      · rfl
  refine ⟨hst, by rw [hst], by rw [hst], by rw [hst], ?_⟩
  intro size2 alignment2
  rw [hst]

/-- Witness of C20: on a 100-byte region with 40 bytes taken, allocate(70, 8) fails
and leaves the allocator as it was. -/
theorem allocate_failure_is_atomic_witness :
    (allocate (allocate (construct 4099 100) 40 8).2 70 8).1 = .error .OUT_OF_MEMORY
      ∧ (allocate (allocate (construct 4099 100) 40 8).2 70 8).2
          = (allocate (construct 4099 100) 40 8).2 :=
  ⟨rfl, (allocate_failure_is_atomic (allocate (construct 4099 100) 40 8).2 70 8
    .OUT_OF_MEMORY rfl).1⟩

/-! ### deallocate -/

theorem deallocate_eq_construct (a : BumpAllocator) :
    deallocate a = construct a.m_startAddress a.m_length := rfl

/-- On a 100-byte region at any 64-bit start address: allocate(40, 8) succeeds and
leaves a bump position between 40 and 47. -/
theorem allocate_40_on_100 (start : Nat) (hs : IsUInt64 start) :
    ∃ address position : Nat,
      allocate (construct start 100) 40 8 = (.ok address, ⟨start, 100, position⟩)
        ∧ 40 ≤ position ∧ position ≤ 47 := by
  unfold IsUInt64 at hs
  have h1 : (start % 2 ^ 64) = start := Nat.mod_eq_of_lt hs
  simp only [allocate, construct, cxx.align, Nat.add_zero, h1]
  norm_num
  split <;> rename_i h0
  · rw [if_pos (by omega)]
    exact ⟨_, _, rfl, by omega, by omega⟩
  · rw [if_pos (by omega)]
    exact ⟨_, _, rfl, by omega, by omega⟩

/-- On a 100-byte region with between 40 and 47 bytes taken, allocate(70, 8) fails. -/
theorem allocate_70_after_40 (start position : Nat) (hs : IsUInt64 start)
    (hlo : 40 ≤ position) (hhi : position ≤ 47) :
    allocate ⟨start, 100, position⟩ 70 8 = (.error .OUT_OF_MEMORY, ⟨start, 100, position⟩) := by
  unfold IsUInt64 at hs
  simp only [allocate, cxx.align]
  norm_num
  split <;> rename_i h0
  · intro hfit
    omega
  · intro hfit
    omega

/-- On a fresh 100-byte region at any 64-bit start address allocate(70, 8) succeeds. -/
theorem allocate_70_on_100 (start : Nat) (hs : IsUInt64 start) :
    ∃ address position : Nat,
      allocate (construct start 100) 70 8 = (.ok address, ⟨start, 100, position⟩) := by
  unfold IsUInt64 at hs
  have h1 : (start % 2 ^ 64) = start := Nat.mod_eq_of_lt hs
  simp only [allocate, construct, cxx.align, Nat.add_zero, h1]
  norm_num
  split <;> rename_i h0
  · rw [if_pos (by omega)]
    exact ⟨_, _, rfl⟩
  · rw [if_pos (by omega)]
    exact ⟨_, _, rfl⟩

/-- Claim C21.  deallocate() sets the bump position to zero and leaves start address
and length unchanged, so the allocator is the freshly constructed
BumpAllocator(start, length) again and every allocate returns what it returns
there; deallocate() twice equals deallocate() once.  On a 100-byte region at any
64-bit start address: allocate(40, 8) succeeds, then allocate(70, 8) fails with
OUT_OF_MEMORY, and after deallocate() allocate(70, 8) succeeds. -/
theorem deallocate_resets (a : BumpAllocator) :
    (deallocate a).m_currentPosition = 0
      ∧ (deallocate a).m_startAddress = a.m_startAddress
      ∧ (deallocate a).m_length = a.m_length
      ∧ deallocate a = construct a.m_startAddress a.m_length
      ∧ (∀ size alignment : Nat,
          allocate (deallocate a) size alignment
            = allocate (construct a.m_startAddress a.m_length) size alignment)
      ∧ deallocate (deallocate a) = deallocate a
      ∧ (∀ start : Nat, IsUInt64 start →
          (∃ address : Nat, (allocate (construct start 100) 40 8).1 = .ok address)
            ∧ (allocate (allocate (construct start 100) 40 8).2 70 8).1 = .error .OUT_OF_MEMORY
            ∧ (allocate (allocate (construct start 100) 40 8).2 70 8).2
                = (allocate (construct start 100) 40 8).2
            ∧ ∃ address : Nat,
                (allocate (deallocate (allocate (construct start 100) 40 8).2) 70 8).1
                  = .ok address) := by
  refine ⟨rfl, rfl, rfl, rfl, fun _ _ => rfl, rfl, ?_⟩
  intro start hs
  obtain ⟨address, position, h40, hlo, hhi⟩ := allocate_40_on_100 start hs
  obtain ⟨address2, position2, h70⟩ := allocate_70_on_100 start hs
  have hfail := allocate_70_after_40 start position hs hlo hhi
  rw [h40]
  refine ⟨⟨address, rfl⟩, ?_, ?_, ?_⟩
  · simp only [hfail]
  · simp only [hfail]
  · refine ⟨address2, ?_⟩
    have hd : deallocate (⟨start, 100, position⟩ : BumpAllocator) = construct start 100 := rfl
    simp only [hd, h70]

/-- Witness of C21: the 100-byte region at address 4099. -/
theorem deallocate_resets_witness :
    IsUInt64 4099
      ∧ (allocate (allocate (construct 4099 100) 40 8).2 70 8).1 = .error .OUT_OF_MEMORY :=
  ⟨by unfold IsUInt64; norm_num,
    ((deallocate_resets (construct 4099 100)).2.2.2.2.2.2 4099
      (by unfold IsUInt64; norm_num)).2.1⟩

/-! ### Sequences of calls -/

theorem allocate_keeps_bounds (a : BumpAllocator) (size alignment : Nat)
    (h : a.m_currentPosition ≤ a.m_length) :
    (allocate a size alignment).2.m_currentPosition ≤ (allocate a size alignment).2.m_length
      ∧ (allocate a size alignment).2.m_length = a.m_length
      ∧ (allocate a size alignment).2.m_startAddress = a.m_startAddress := by
  by_cases hs : size = 0
  · rw [hs, allocate_zero]
    exact ⟨h, rfl, rfl⟩
  · unfold allocate
    simp only [hs, if_false]
    split
    · rename_i hfit
      exact ⟨hfit, rfl, rfl⟩
    · exact ⟨h, rfl, rfl⟩

theorem apply_keeps_bounds (a : BumpAllocator) (op : Operation)
    (h : a.m_currentPosition ≤ a.m_length) :
    (Operation.apply a op).m_currentPosition ≤ (Operation.apply a op).m_length
      ∧ (Operation.apply a op).m_length = a.m_length
      ∧ (Operation.apply a op).m_startAddress = a.m_startAddress := by
  cases op with
  | allocate size alignment => exact allocate_keeps_bounds a size alignment h
  | deallocate => exact ⟨Nat.zero_le _, rfl, rfl⟩

theorem runOperations_keeps_bounds (ops : List Operation) :
    ∀ a : BumpAllocator, a.m_currentPosition ≤ a.m_length →
      (runOperations a ops).m_currentPosition ≤ (runOperations a ops).m_length
        ∧ (runOperations a ops).m_length = a.m_length
        ∧ (runOperations a ops).m_startAddress = a.m_startAddress := by
  induction ops with
  | nil => intro a h; exact ⟨h, rfl, rfl⟩
  | cons op ops ih =>
    intro a h
    obtain ⟨h1, h2, h3⟩ := apply_keeps_bounds a op h
    obtain ⟨i1, i2, i3⟩ := ih (Operation.apply a op) h1
    exact ⟨i1, by rw [← h2]; exact i2, by rw [← h3]; exact i3⟩

/-- Claim C24.  Hard capacity invariant of the BumpAllocator: in the state reached from
BumpAllocator(start, length) by any sequence of allocate(size, alignment) and
deallocate() calls, with arbitrary sizes and alignments and all arithmetic taken
modulo 2^64, the bump position is at most length; length and start address are
the constructed ones. -/
theorem position_never_exceeds_length (ops : List Operation) (start length : Nat) :
    (runOperations (construct start length) ops).m_currentPosition ≤ length
      ∧ (runOperations (construct start length) ops).m_length = length
      ∧ (runOperations (construct start length) ops).m_startAddress = start := by
  obtain ⟨h1, h2, h3⟩ := runOperations_keeps_bounds ops (construct start length)
    (Nat.zero_le _)
  have h2b : (runOperations (construct start length) ops).m_length = length := h2
  exact ⟨Nat.le_trans h1 (Nat.le_of_eq h2b), h2b, h3⟩

end BumpAllocator

end iox

/-! ## Bounded storage of the WaitSet -/

namespace iox

namespace popo

namespace WaitSet

open cxx

variable {Capacity : Nat}

theorem fulfilledConditions_length_le (ws : WaitSetData Capacity) (w : World) :
    (fulfilledConditions ws w).length ≤ ws.m_conditionVector.data.length := by
  unfold fulfilledConditions
  rw [List.length_map]
  exact List.length_filter_le _ _

/-- Claim C23.  Bounded storage: in every state reached by the public operations the
collection holds at most Capacity Triggers; in the scan for fulfilled conditions
every push_back into the result vector succeeds, wherever in the collection the
loop stands, so no fulfilled Condition is dropped; and the sequences returned by
the scan, by wait() and by timedWait() never have more entries than the
collection. -/
theorem storage_is_bounded (s : State Capacity) :
    (∀ (ops : List Operation) (self handle : Nat) (w : World),
        (runOperations (construct self handle w : State Capacity)
          ops).waitSet.m_conditionVector.data.length ≤ Capacity)
    ∧ s.waitSet.m_conditionVector.data.length ≤ Capacity
    ∧ (∀ (l1 : List Trigger) (t : Trigger) (l2 : List Trigger),
        s.waitSet.m_conditionVector.data = l1 ++ t :: l2 →
          (((l1.foldl scanStep ((vector.nil : vector Nat Capacity), s)).1.push_back
            t.m_condition).1 = true))
    ∧ (createVectorWithFullfilledConditions s).1.data = fulfilledConditions s.waitSet s.world
    ∧ (createVectorWithFullfilledConditions s).1.data.length
        ≤ s.waitSet.m_conditionVector.data.length
    ∧ (∀ cv : ConditionVariableWaiter,
        (wait cv s).1.data.length ≤ s.waitSet.m_conditionVector.data.length)
    ∧ (∀ (cv : ConditionVariableWaiter) (d : Nat),
        (timedWait cv d s).1.data.length ≤ s.waitSet.m_conditionVector.data.length) := by
  refine ⟨fun ops self handle w => vector.size_le _, vector.size_le _, ?_, createVector_data s,
    ?_, ?_, ?_⟩
  · intro l1 t l2 hsplit
    have hle := s.waitSet.m_conditionVector.size_le
    rw [hsplit] at hle
    simp only [List.length_append, List.length_cons] at hle
    have hscan := (scan_foldl l1 ((vector.nil : vector Nat Capacity), s)
      (by simp only [vector.nil, List.length_nil]; omega)).1
    have hlen : (l1.foldl scanStep ((vector.nil : vector Nat Capacity), s)).1.data.length
        ≤ l1.length := by
      rw [hscan]
      simp only [vector.nil, List.nil_append, List.length_map]
      exact List.length_filter_le _ _
    exact (vector.push_back_of_lt _ _ (by omega)).1
  · rw [createVector_data]
    exact fulfilledConditions_length_le _ _
  · intro cv
    by_cases h : preCheckEmpty cv s
    · rw [(wait_of_empty cv s h).1]
      exact fulfilledConditions_length_le _ _
    · have hw : (wait cv s).1.data = fulfilledConditions s.waitSet (preCheckWorld cv s) :=
        (waitAndReturn_of_found cv (waitFunction cv) s h).1
      rw [hw]
      exact fulfilledConditions_length_le _ _
  · intro cv d
    by_cases h : preCheckEmpty cv s
    · rw [(timedWait_of_empty cv d s h).1]
      split
      · exact fulfilledConditions_length_le _ _
      · exact Nat.zero_le _
    · have hw : (timedWait cv d s).1.data = fulfilledConditions s.waitSet (preCheckWorld cv s) :=
        (waitAndReturn_of_found cv (timedWaitFunction cv d) s h).1
      rw [hw]
      exact fulfilledConditions_length_le _ _

end WaitSet

end popo

end iox

/-! ## The Windows semaphore shim -/

namespace win

theorem sem_timedwait_of_past (abs_timeout : timespec) (tv : timeval)
    (WaitForSingleObject : Int → WaitState) (h : abs_timeout.tv_sec < tv.tv_sec) :
    sem_timedwait abs_timeout tv WaitForSingleObject = ⟨0, none, none, false⟩ := by
  simp [sem_timedwait, h]

theorem sem_timedwait_of_attempt (abs_timeout : timespec) (tv : timeval)
    (WaitForSingleObject : Int → WaitState) (h : ¬ abs_timeout.tv_sec < tv.tv_sec) :
    ∃ milliseconds : Int,
      (sem_timedwait abs_timeout tv WaitForSingleObject).milliseconds = some milliseconds
        ∧ (sem_timedwait abs_timeout tv WaitForSingleObject).dwMilliseconds
            = some (toDWORD milliseconds)
        ∧ ((sem_timedwait abs_timeout tv WaitForSingleObject).returnValue = 0 ↔
            WaitForSingleObject (toDWORD milliseconds) = WaitState.WAIT_OBJECT_0)
        ∧ ((sem_timedwait abs_timeout tv WaitForSingleObject).returnValue = -1 ↔
            WaitForSingleObject (toDWORD milliseconds) ≠ WaitState.WAIT_OBJECT_0) := by
  refine ⟨toLong ((abs_timeout.tv_sec - tv.tv_sec) * 1000
    + Int.tdiv (Int.tdiv abs_timeout.tv_nsec 1000 - tv.tv_usec) 1000), ?_, ?_, ?_, ?_⟩
  · simp only [sem_timedwait, h, if_false]
  · simp only [sem_timedwait, h, if_false]
  · simp only [sem_timedwait, h, if_false]
    split <;> simp_all
  · simp only [sem_timedwait, h, if_false]
    split <;> simp_all

/-- Claim C25, the code at the failing input: the deadline lies at second 10 and the
current time is second 11.  sem_timedwait returns 0, the value that means the
semaphore was acquired, without calling WaitForSingleObject and without setting
errno to ETIMEDOUT; it does so for every deadline whose seconds lie before the
current seconds.  When the wait is attempted, 0 is returned exactly for
WAIT_OBJECT_0. -/
theorem sem_timedwait_past_deadline_returns_zero :
    sem_timedwait ⟨10, 0⟩ ⟨11, 0⟩ (fun _ => WaitState.WAIT_TIMEOUT) = ⟨0, none, none, false⟩
      ∧ (∀ (abs_timeout : timespec) (tv : timeval) (WaitForSingleObject : Int → WaitState),
          abs_timeout.tv_sec < tv.tv_sec →
            (sem_timedwait abs_timeout tv WaitForSingleObject).returnValue = 0
              ∧ (sem_timedwait abs_timeout tv WaitForSingleObject).dwMilliseconds = none)
      ∧ (∀ (abs_timeout : timespec) (tv : timeval) (WaitForSingleObject : Int → WaitState),
          ¬ abs_timeout.tv_sec < tv.tv_sec →
            ∃ milliseconds : Int,
              (sem_timedwait abs_timeout tv WaitForSingleObject).dwMilliseconds
                  = some (toDWORD milliseconds)
                ∧ ((sem_timedwait abs_timeout tv WaitForSingleObject).returnValue = 0 ↔
                    WaitForSingleObject (toDWORD milliseconds) = WaitState.WAIT_OBJECT_0)) := by
  refine ⟨by decide, ?_, ?_⟩
  · intro abs_timeout tv W h
    rw [sem_timedwait_of_past abs_timeout tv W h]
    exact ⟨rfl, rfl⟩
  · intro abs_timeout tv W h
    obtain ⟨ms, _, h2, h3, _⟩ := sem_timedwait_of_attempt abs_timeout tv W h
    exact ⟨ms, h2, h3⟩

/-- Claim C26, the code at the failing inputs.  Deadline 100 s + 0 ns, current time
100 s + 500000 us: the deadline passed half a second ago, the wait is attempted
all the same, `milliseconds` is -500 and WaitForSingleObject is handed the DWORD
4294966796, more than 49 days.  Deadline 101 s + 0 ns, current time
100 s + 999999 us: 1000 ns remain, and the timeout handed over is 1 ms, which is
1000000 ns. -/
theorem sem_timedwait_timeout_exceeds_remaining :
    (sem_timedwait ⟨100, 0⟩ ⟨100, 500000⟩ (fun _ => WaitState.WAIT_TIMEOUT)).milliseconds
        = some (-500)
      ∧ (sem_timedwait ⟨100, 0⟩ ⟨100, 500000⟩ (fun _ => WaitState.WAIT_TIMEOUT)).dwMilliseconds
        = some 4294966796
      ∧ remainingNanoseconds ⟨100, 0⟩ ⟨100, 500000⟩ = -500000000
      ∧ (sem_timedwait ⟨101, 0⟩ ⟨100, 999999⟩ (fun _ => WaitState.WAIT_TIMEOUT)).milliseconds
        = some 1
      ∧ (sem_timedwait ⟨101, 0⟩ ⟨100, 999999⟩ (fun _ => WaitState.WAIT_TIMEOUT)).dwMilliseconds
        = some 1
      ∧ remainingNanoseconds ⟨101, 0⟩ ⟨100, 999999⟩ = 1000
      ∧ (1 : Int) * 1000000 > remainingNanoseconds ⟨101, 0⟩ ⟨100, 999999⟩ := by
  refine ⟨by decide, by decide, by decide, by decide, by decide, by decide, by decide⟩

end win

/-! ## Allocations on regions of at most 2^62 bytes -/

namespace iox

namespace BumpAllocator

end BumpAllocator

end iox
